import Mathlib

/-!
Shallow embedding of the FIDL front-end semantic-analysis stage of the
magenta repository (`system/host/fidl/module.h` and the `module.cpp`
translation unit): AST flattening (`Consume*`), name registration, and
type/shape resolution (`Resolve*`), together with theorems about the
embedded operations.

Modelling conventions:
- `size_t` arithmetic is 64-bit; sizes are `Nat` reduced `% 2 ^ 64`
  wherever the C++ can wrap.
- `std::set` / `std::map` become lists with insert-if-absent, which is
  all the code observes (`insert(...).second`, `find`, `operator[]` is
  only used by the external `Dump` reporter).
- `ast.h` is not among the sources; AST nodes are modelled exactly by the
  fields `module.cpp` reads from them.  A `NumericLiteral` is modelled by
  the nonnegative integer value its digit token denotes (lexing is an
  external collaborator); `CompoundIdentifier` is a single component,
  which `Module::ResolveTypeName` asserts.
-/

namespace Fidl

/-- Modulus of `size_t` arithmetic (the host is 64-bit). -/
def sizeTMod : Nat := 2 ^ 64

/-- `PrimitiveType::Subtype` from `ast.h` (the eleven primitive kinds the
resolver dispatches on). -/
inductive PrimitiveSubtype where
  | int8 | int16 | int32 | int64
  | uint8 | uint16 | uint32 | uint64
  | bool | float32 | float64
deriving DecidableEq

/-- `Literal::Kind` together with the payload the code reads: a numeric
literal is modelled by the value of its digit token. -/
inductive Literal where
  | stringLit
  | trueLit
  | falseLit
  | defaultLit
  | numeric (value : Nat)
deriving DecidableEq

/-- `Constant`: either an identifier constant or a literal constant. -/
inductive Constant where
  | identifier (id : String)
  | literal (lit : Literal)
deriving DecidableEq

/-- `Type` from `ast.h`, restricted to the fields `module.cpp` reads.
`request`/`identifier` carry the single component of their
`CompoundIdentifier`. -/
inductive Type' where
  | array (elementType : Type') (elementCount : Option Constant)
  | vector (elementType : Type') (maybeElementCount : Option Constant)
  | string (maybeElementCount : Option Constant)
  | handle
  | request (subtype : String)
  | primitive (subtype : PrimitiveSubtype)
  | identifier (id : String)
deriving DecidableEq

/-- `TypeShape` from `module.h`: inline size, alignment, and the list of
out-of-line `Allocation`s.  An `Allocation` is a payload `TypeShape`
together with its bound, encoded as a pair. -/
inductive TypeShape where
  | mk (size : Nat) (alignment : Nat) (allocations : List (TypeShape × Nat)) : TypeShape

def TypeShape.size : TypeShape → Nat
  | .mk s _ _ => s

def TypeShape.alignment : TypeShape → Nat
  | .mk _ a _ => a

def TypeShape.allocations : TypeShape → List (TypeShape × Nat)
  | .mk _ _ al => al

/-- `TypeShape()` — default constructed: size 0, alignment 1, no
allocations. -/
def defaultTypeShape : TypeShape := .mk 0 1 []

def kHandleTypeShape : TypeShape := .mk 4 4 []
def kInt8TypeShape : TypeShape := .mk 1 1 []
def kInt16TypeShape : TypeShape := .mk 2 2 []
def kInt32TypeShape : TypeShape := .mk 4 4 []
def kInt64TypeShape : TypeShape := .mk 8 8 []
def kUint8TypeShape : TypeShape := .mk 1 1 []
def kUint16TypeShape : TypeShape := .mk 2 2 []
def kUint32TypeShape : TypeShape := .mk 4 4 []
def kUint64TypeShape : TypeShape := .mk 8 8 []
def kBoolTypeShape : TypeShape := .mk 1 1 []
def kFloat32TypeShape : TypeShape := .mk 4 4 []
def kFloat64TypeShape : TypeShape := .mk 8 8 []

/-- `ArrayTypeShape(element, count)`:
`TypeShape(element.Size() * count, element.Alignment())` with `size_t`
multiplication. -/
def ArrayTypeShape (element : TypeShape) (count : Nat) : TypeShape :=
  .mk (element.size * count % sizeTMod) element.alignment []

/-- `UnionShape(left, right)`: max size, max alignment, then
`size += alignment - 1; size &= ~(alignment - 1)` in `size_t`
arithmetic (`~x` on 64 bits is `(2^64 - 1) - x`). -/
def UnionShape (left right : TypeShape) : TypeShape :=
  let size := max left.size right.size
  let alignment := max left.alignment right.alignment
  let am1 := (alignment + (sizeTMod - 1)) % sizeTMod
  let size := (size + am1) % sizeTMod
  let size := size &&& ((sizeTMod - 1) - am1)
  .mk size alignment []

/-- The widths/signedness of the `IntType` instantiations of
`ParseIntegerLiteral` / `ParseIntegerConstant` used by the code. -/
structure CIntType where
  signed : Bool
  maxV : Int
  minV : Int
deriving DecidableEq

def int64T : CIntType := ⟨true, 2 ^ 63 - 1, -(2 ^ 63)⟩
def uint64T : CIntType := ⟨false, 2 ^ 64 - 1, 0⟩
def uint32T : CIntType := ⟨false, 2 ^ 32 - 1, 0⟩

/-- `ParseIntegerLiteral<IntType>`: null literal fails; otherwise the
digit token (denoting `n ≥ 0`) is parsed by `strtoull`/`strtoll`
(`errno = ERANGE` when the value exceeds the 64-bit range) and then
checked against the limits of `IntType`. -/
def parseIntegerLiteral (t : CIntType) (lit : Option Nat) : Option Int :=
  match lit with
  | none => none
  | some n =>
    if t.signed then
      if (n : Int) > 2 ^ 63 - 1 then none
      else if (n : Int) > t.maxV then none
      else if (n : Int) < t.minV then none
      else some (n : Int)
    else
      if (n : Int) > 2 ^ 64 - 1 then none
      else if (n : Int) > t.maxV then none
      else some (n : Int)

/-- `ParseIntegerConstant<IntType>`: null fails; an identifier constant
is a stub that yields the placeholder value 23; a literal constant is
parsed only when numeric. -/
def parseIntegerConstant (t : CIntType) (constant : Option Constant) : Option Int :=
  match constant with
  | none => none
  | some (.identifier _) => some 23
  | some (.literal .stringLit) => none
  | some (.literal .trueLit) => none
  | some (.literal .falseLit) => none
  | some (.literal .defaultLit) => none
  | some (.literal (.numeric n)) => parseIntegerLiteral t (some n)

/-- `Scope<T>::Insert`: succeed exactly when the key is new. -/
def scopeInsert {α : Type} [DecidableEq α] (scope : List α) (x : α) : Bool × List α :=
  if x ∈ scope then (false, scope) else (true, x :: scope)

-- Flattened declaration records (`module.h`).

structure ConstInfo where
  name : String
  type : Type'
  value : Constant
deriving DecidableEq

/-- `EnumInfo`: every member's value is `nullptr` at consume time, so a
member is just its name. -/
structure EnumInfo where
  name : String
  type : PrimitiveSubtype
  members : List String
deriving DecidableEq

structure Parameter where
  type : Type'
  name : String
deriving DecidableEq

structure Method where
  ordinal : Nat
  name : String
  parameterList : List Parameter
  hasResponse : Bool
  maybeResponse : List Parameter
deriving DecidableEq

structure InterfaceInfo where
  name : String
  methods : List Method
deriving DecidableEq

structure StructMember where
  type : Type'
  name : String
  defaultValue : Option Constant
deriving DecidableEq

structure StructInfo where
  name : String
  members : List StructMember
deriving DecidableEq

structure UnionMember where
  type : Type'
  name : String
deriving DecidableEq

structure UnionInfo where
  name : String
  members : List UnionMember
deriving DecidableEq

-- AST declaration nodes (`ast.h`), restricted to the fields consumed.

structure ConstDeclaration where
  identifier : String
  type : Type'
  constant : Constant
deriving DecidableEq

structure EnumDeclaration where
  identifier : String
  maybeSubtype : Option PrimitiveSubtype
  members : List String
deriving DecidableEq

structure MethodDeclaration where
  ordinal : Option Nat
  identifier : String
  parameterList : List Parameter
  maybeResponse : Option (List Parameter)
deriving DecidableEq

structure InterfaceDeclaration where
  identifier : String
  constMembers : List ConstDeclaration
  enumMembers : List EnumDeclaration
  methodMembers : List MethodDeclaration
deriving DecidableEq

structure StructDeclaration where
  identifier : String
  constMembers : List ConstDeclaration
  enumMembers : List EnumDeclaration
  members : List StructMember
deriving DecidableEq

structure UnionDeclaration where
  identifier : String
  members : List UnionMember
deriving DecidableEq

structure File where
  constDeclarationList : List ConstDeclaration
  enumDeclarationList : List EnumDeclaration
  interfaceDeclarationList : List InterfaceDeclaration
  structDeclarationList : List StructDeclaration
  unionDeclarationList : List UnionDeclaration
deriving DecidableEq

/-- The state of a `Module`: the flattened info tables, the global
type-name registry, and the resolved-shape map. -/
structure Module where
  constInfos : List ConstInfo
  enumInfos : List EnumInfo
  interfaceInfos : List InterfaceInfo
  structInfos : List StructInfo
  unionInfos : List UnionInfo
  registeredTypes : List String
  resolvedTypes : List (String × TypeShape)

/-- A freshly constructed `Module`. -/
def initModule : Module := ⟨[], [], [], [], [], [], []⟩

/-- `Module::RegisterTypeName`: insert into the registry, failing when
the name is already present. -/
def Module.registerTypeName (m : Module) (name : String) : Bool × Module :=
  if name ∈ m.registeredTypes then (false, m)
  else (true, { m with registeredTypes := name :: m.registeredTypes })

/-- `Module::RegisterResolvedType`: insert `name → typeshape` into the
resolved map, failing when the key is already present. -/
def Module.registerResolvedType (m : Module) (name : String) (typeshape : TypeShape) :
    Bool × Module :=
  if (m.resolvedTypes.lookup name).isSome then (false, m)
  else (true, { m with resolvedTypes := (name, typeshape) :: m.resolvedTypes })

/-- Run a fallible step over a list, aborting at the first failure
(the shape of every `for`-loop with early `return false` in the code). -/
def runList {α σ : Type} (f : σ → α → Bool × σ) : σ → List α → Bool × σ
  | st, [] => (true, st)
  | st, x :: xs =>
    match f st x with
    | (true, st') => runList f st' xs
    | (false, st') => (false, st')

/-- `Module::ConsumeConstDeclaration`. -/
def Module.consumeConstDeclaration (m : Module) (d : ConstDeclaration) : Bool × Module :=
  match m.registerTypeName d.identifier with
  | (false, m') => (false, m')
  | (true, m') =>
    (true, { m' with constInfos := m'.constInfos ++ [⟨d.identifier, d.type, d.constant⟩] })

/-- `Module::ConsumeEnumDeclaration`: a missing underlying subtype is
replaced by `uint32`. -/
def Module.consumeEnumDeclaration (m : Module) (d : EnumDeclaration) : Bool × Module :=
  let type := d.maybeSubtype.getD PrimitiveSubtype.uint32
  match m.registerTypeName d.identifier with
  | (false, m') => (false, m')
  | (true, m') =>
    (true, { m' with enumInfos := m'.enumInfos ++ [⟨d.identifier, type, d.members⟩] })

/-- One method of `Module::ConsumeInterfaceDeclaration`: the ordinal
literal must parse as `uint32`. -/
def consumeMethod (d : MethodDeclaration) : Option Method :=
  match parseIntegerLiteral uint32T d.ordinal with
  | none => none
  | some v =>
    some ⟨v.toNat, d.identifier, d.parameterList, d.maybeResponse.isSome,
      d.maybeResponse.getD []⟩

def consumeMethods : List MethodDeclaration → Option (List Method)
  | [] => some []
  | d :: ds =>
    match consumeMethod d with
    | none => none
    | some mtd =>
      match consumeMethods ds with
      | none => none
      | some rest => some (mtd :: rest)

/-- `Module::ConsumeInterfaceDeclaration`: nested consts and enums are
consumed (and registered) first, then the methods are built, then the
interface's own name is registered. -/
def Module.consumeInterfaceDeclaration (m : Module) (d : InterfaceDeclaration) :
    Bool × Module :=
  match runList Module.consumeConstDeclaration m d.constMembers with
  | (false, m1) => (false, m1)
  | (true, m1) =>
    match runList Module.consumeEnumDeclaration m1 d.enumMembers with
    | (false, m2) => (false, m2)
    | (true, m2) =>
      match consumeMethods d.methodMembers with
      | none => (false, m2)
      | some methods =>
        match m2.registerTypeName d.identifier with
        | (false, m3) => (false, m3)
        | (true, m3) =>
          (true, { m3 with interfaceInfos := m3.interfaceInfos ++ [⟨d.identifier, methods⟩] })

/-- `Module::ConsumeStructDeclaration`: nested consts and enums first,
then the member list, then the struct's own name. -/
def Module.consumeStructDeclaration (m : Module) (d : StructDeclaration) : Bool × Module :=
  match runList Module.consumeConstDeclaration m d.constMembers with
  | (false, m1) => (false, m1)
  | (true, m1) =>
    match runList Module.consumeEnumDeclaration m1 d.enumMembers with
    | (false, m2) => (false, m2)
    | (true, m2) =>
      match m2.registerTypeName d.identifier with
      | (false, m3) => (false, m3)
      | (true, m3) =>
        (true, { m3 with structInfos := m3.structInfos ++ [⟨d.identifier, d.members⟩] })

/-- `Module::ConsumeUnionDeclaration`. -/
def Module.consumeUnionDeclaration (m : Module) (d : UnionDeclaration) : Bool × Module :=
  match m.registerTypeName d.identifier with
  | (false, m') => (false, m')
  | (true, m') =>
    (true, { m' with unionInfos := m'.unionInfos ++ [⟨d.identifier, d.members⟩] })

/-- `Module::ConsumeFile`: the five declaration categories in fixed
order, aborting at the first failure. -/
def Module.consumeFile (m : Module) (f : File) : Bool × Module :=
  match runList Module.consumeConstDeclaration m f.constDeclarationList with
  | (false, m1) => (false, m1)
  | (true, m1) =>
    match runList Module.consumeEnumDeclaration m1 f.enumDeclarationList with
    | (false, m2) => (false, m2)
    | (true, m2) =>
      match runList Module.consumeInterfaceDeclaration m2 f.interfaceDeclarationList with
      | (false, m3) => (false, m3)
      | (true, m3) =>
        match runList Module.consumeStructDeclaration m3 f.structDeclarationList with
        | (false, m4) => (false, m4)
        | (true, m4) => runList Module.consumeUnionDeclaration m4 f.unionDeclarationList

/-- `Module::ResolveTypeName`: look the (single-component) identifier up
in the global registry. -/
def Module.resolveTypeName (m : Module) (id : String) : Bool :=
  id ∈ m.registeredTypes

/-- `Module::ResolvePrimitiveType`: the fixed shape table; never fails. -/
def primitiveTypeShape : PrimitiveSubtype → TypeShape
  | .int8 => kInt8TypeShape
  | .int16 => kInt16TypeShape
  | .int32 => kInt32TypeShape
  | .int64 => kInt64TypeShape
  | .uint8 => kUint8TypeShape
  | .uint16 => kUint16TypeShape
  | .uint32 => kUint32TypeShape
  | .uint64 => kUint64TypeShape
  | .bool => kBoolTypeShape
  | .float32 => kFloat32TypeShape
  | .float64 => kFloat64TypeShape

/-- `Module::ResolveType` and the seven per-kind resolvers.  The result
is the final value of the caller's `out_typeshape`; every call site in
the code passes a freshly default-constructed `TypeShape`, and the
vector/string/identifier resolvers never write it (shape computation is
an explicit TODO there), so on success those cases yield
`defaultTypeShape`. -/
def Module.resolveType (m : Module) : Type' → Option TypeShape
  | .array elementType elementCount =>
    match m.resolveType elementType with
    | none => none
    | some elementTypeshape =>
      match parseIntegerConstant uint64T elementCount with
      | none => none
      | some count =>
        if count = 0 then none
        else some (ArrayTypeShape elementTypeshape count.toNat)
  | .vector elementType maybeElementCount =>
    match m.resolveType elementType with
    | none => none
    | some _ =>
      match maybeElementCount with
      | some c =>
        match parseIntegerConstant int64T (some c) with
        | none => none
        | some value => if value ≤ 0 then none else some defaultTypeShape
      | none => some defaultTypeShape
  | .string maybeElementCount =>
    match maybeElementCount with
    | some c =>
      match parseIntegerConstant int64T (some c) with
      | none => none
      | some value => if value ≤ 0 then none else some defaultTypeShape
    | none => some defaultTypeShape
  | .handle => some kHandleTypeShape
  | .request subtype =>
    if m.resolveTypeName subtype then some kHandleTypeShape else none
  | .primitive subtype => some (primitiveTypeShape subtype)
  | .identifier id =>
    if m.resolveTypeName id then some defaultTypeShape else none

/-- `Module::ResolveConstInfo`: resolve the declared type; the constant
itself is an open TODO. -/
def Module.resolveConstInfo (m : Module) (ci : ConstInfo) : Bool × Module :=
  ((m.resolveType ci.type).isSome, m)

/-- `Module::ResolveEnumInfo`: the eight sized-integer subtypes resolve
to their primitive shape and are registered; `bool`/`float32`/`float64`
are rejected. -/
def Module.resolveEnumInfo (m : Module) (ei : EnumInfo) : Bool × Module :=
  match ei.type with
  | .int8 | .int16 | .int32 | .int64 | .uint8 | .uint16 | .uint32 | .uint64 =>
    match m.resolveType (Type'.primitive ei.type) with
    | none => (false, m)
    | some typeshape => m.registerResolvedType ei.name typeshape
  | .bool => (false, m)
  | .float32 => (false, m)
  | .float64 => (false, m)

/-- The per-parameter-list loop of `Module::ResolveInterfaceInfo`. -/
def Module.resolveParameterList (m : Module) : List Parameter → List String → Bool
  | [], _ => true
  | p :: ps, scope =>
    match scopeInsert scope p.name with
    | (false, _) => false
    | (true, scope') =>
      if (m.resolveType p.type).isSome then m.resolveParameterList ps scope' else false

/-- The method loop of `Module::ResolveInterfaceInfo`: a per-interface
name scope and ordinal scope, and a fresh scope per parameter list. -/
def Module.resolveMethods (m : Module) :
    List Method → List String → List Nat → Bool
  | [], _, _ => true
  | mtd :: ms, nameScope, ordinalScope =>
    match scopeInsert nameScope mtd.name with
    | (false, _) => false
    | (true, nameScope') =>
      match scopeInsert ordinalScope mtd.ordinal with
      | (false, _) => false
      | (true, ordinalScope') =>
        if m.resolveParameterList mtd.parameterList [] then
          if mtd.hasResponse then
            if m.resolveParameterList mtd.maybeResponse [] then
              m.resolveMethods ms nameScope' ordinalScope'
            else false
          else m.resolveMethods ms nameScope' ordinalScope'
        else false

/-- `Module::ResolveInterfaceInfo`: no shape is computed or registered. -/
def Module.resolveInterfaceInfo (m : Module) (ii : InterfaceInfo) : Bool × Module :=
  (m.resolveMethods ii.methods [] [], m)

/-- The member loop of `Module::ResolveStructInfo`: per-struct name
scope, members in declared order. -/
def Module.resolveStructMembers (m : Module) : List StructMember → List String → Bool
  | [], _ => true
  | mem :: rest, scope =>
    match scopeInsert scope mem.name with
    | (false, _) => false
    | (true, scope') =>
      if (m.resolveType mem.type).isSome then m.resolveStructMembers rest scope' else false

/-- `Module::ResolveStructInfo`: member layout is an open TODO — no
shape is computed and nothing is registered. -/
def Module.resolveStructInfo (m : Module) (si : StructInfo) : Bool × Module :=
  (m.resolveStructMembers si.members [], m)

/-- The member loop of `Module::ResolveUnionInfo`: per-union name scope,
folding member shapes with `UnionShape` starting from the
default-constructed `TypeShape`. -/
def Module.resolveUnionMembers (m : Module) :
    List UnionMember → List String → TypeShape → Option TypeShape
  | [], _, typeshape => some typeshape
  | mem :: rest, scope, typeshape =>
    match scopeInsert scope mem.name with
    | (false, _) => none
    | (true, scope') =>
      match m.resolveType mem.type with
      | none => none
      | some memberTypeshape =>
        m.resolveUnionMembers rest scope' (UnionShape typeshape memberTypeshape)

/-- `Module::ResolveUnionInfo`. -/
def Module.resolveUnionInfo (m : Module) (ui : UnionInfo) : Bool × Module :=
  match m.resolveUnionMembers ui.members [] defaultTypeShape with
  | none => (false, m)
  | some typeshape => m.registerResolvedType ui.name typeshape

/-- `Module::Resolve`: the five categories in the same fixed order as
`ConsumeFile`, aborting at the first failure. -/
def Module.resolve (m : Module) : Bool × Module :=
  match runList Module.resolveConstInfo m m.constInfos with
  | (false, m1) => (false, m1)
  | (true, m1) =>
    match runList Module.resolveEnumInfo m1 m1.enumInfos with
    | (false, m2) => (false, m2)
    | (true, m2) =>
      match runList Module.resolveInterfaceInfo m2 m2.interfaceInfos with
      | (false, m3) => (false, m3)
      | (true, m3) =>
        match runList Module.resolveStructInfo m3 m3.structInfos with
        | (false, m4) => (false, m4)
        | (true, m4) => runList Module.resolveUnionInfo m4 m4.unionInfos

/-- `Module::Parse` from the point the external lexer/parser has handed
over the `File` AST: consume, then resolve; a consume failure returns
before `Resolve` is entered. -/
def Module.parse (m : Module) (f : File) : Bool × Module :=
  match m.consumeFile f with
  | (false, m') => (false, m')
  | (true, m') => m'.resolve

/-- Parsing one file on a freshly constructed `Module` (the driver in
the test binary constructs one `Module` and feeds it the files). -/
def parseFile (f : File) : Bool × Module :=
  initModule.parse f

/-! ## Arithmetic helpers: align-up as computed by `UnionShape` -/

/-- Least multiple of `a` that is `≥ d` (for `a > 0`): the spec-side
reading of "size rounded up to the alignment". -/
def roundUpTo (d a : Nat) : Nat := (d + a - 1) / a * a

lemma le_roundUpTo (d a : Nat) (ha : 0 < a) : d ≤ roundUpTo d a := by
  rcases Nat.eq_zero_or_pos d with hd | hd
  · simp [hd]
  · unfold roundUpTo
    have h1 : d + a - 1 = (d - 1) + a := by omega
    rw [h1, Nat.add_div_right _ ha, Nat.succ_mul]
    have h2 : (d - 1) / a * a + (d - 1) % a = d - 1 := Nat.div_add_mod' (d - 1) a
    have h3 : (d - 1) % a < a := Nat.mod_lt _ ha
    omega

lemma roundUpTo_dvd (d a : Nat) : a ∣ roundUpTo d a :=
  Dvd.intro_left _ rfl

lemma roundUpTo_min (d a m : Nat) (ha : 0 < a) (hdm : d ≤ m) (ham : a ∣ m) :
    roundUpTo d a ≤ m := by
  obtain ⟨c, rfl⟩ := ham
  unfold roundUpTo
  have hq : (d + a - 1) / a ≤ c := by
    have h1 : d + a - 1 < (c + 1) * a := by
      have e1 : (c + 1) * a = c * a + a := by ring
      have e2 : a * c = c * a := Nat.mul_comm a c
      omega
    have h2 := (Nat.div_lt_iff_lt_mul ha).mpr h1
    omega
  calc (d + a - 1) / a * a ≤ c * a := Nat.mul_le_mul_right a hq
    _ = a * c := Nat.mul_comm c a

lemma roundUpTo_eq_self (d a : Nat) (ha : 0 < a) (h : a ∣ d) : roundUpTo d a = d :=
  Nat.le_antisymm (roundUpTo_min d a d ha le_rfl h) (le_roundUpTo d a ha)

lemma roundUpTo_le_of_le (d d' a : Nat) (ha : 0 < a) (h : d ≤ d') :
    roundUpTo d a ≤ roundUpTo d' a :=
  roundUpTo_min d a _ ha (h.trans (le_roundUpTo d' a ha)) (roundUpTo_dvd d' a)

lemma roundUpTo_le_of_dvd (d a a' : Nat) (ha : 0 < a) (ha' : 0 < a') (h : a ∣ a') :
    roundUpTo d a ≤ roundUpTo d a' :=
  roundUpTo_min d a _ ha (le_roundUpTo d a' ha') (h.trans (roundUpTo_dvd d a'))

/-- Absorbing an inner (finer) align-up into an outer one over a larger
maximum. -/
lemma roundUpTo_absorb (d s a a' : Nat) (ha : 0 < a) (ha' : 0 < a') (hdvd : a ∣ a') :
    roundUpTo (max (roundUpTo d a) s) a' = roundUpTo (max d s) a' := by
  apply Nat.le_antisymm
  · apply roundUpTo_min _ _ _ ha'
    · apply max_le
      · exact roundUpTo_min _ _ _ ha
          (le_max_left d s |>.trans (le_roundUpTo _ _ ha'))
          (hdvd.trans (roundUpTo_dvd _ _))
      · exact le_max_right d s |>.trans (le_roundUpTo _ _ ha')
    · exact roundUpTo_dvd _ _
  · apply roundUpTo_le_of_le _ _ _ ha'
    apply max_le_max_right
    exact le_roundUpTo d a ha

/-- Clearing the low `k` bits of `x < 2^64` with the mask
`~(2^k - 1)` (as 64-bit complement) rounds down to a multiple of
`2^k`. -/
lemma land_high_mask (k x : Nat) (hk : k ≤ 64) (hx : x < 2 ^ 64) :
    x &&& (2 ^ 64 - 2 ^ k) = x / 2 ^ k * 2 ^ k := by
  have hmask : 2 ^ 64 - 2 ^ k = (2 ^ (64 - k) - 1) <<< k := by
    rw [Nat.shiftLeft_eq, Nat.sub_mul, one_mul, ← Nat.pow_add]
    congr 2
    omega
  have hres : x / 2 ^ k * 2 ^ k = (x >>> k) <<< k := by
    rw [Nat.shiftLeft_eq, Nat.shiftRight_eq_div_pow]
  rw [hmask, hres]
  apply Nat.eq_of_testBit_eq
  intro i
  rw [Nat.testBit_land, Nat.testBit_shiftLeft, Nat.testBit_shiftLeft,
    Nat.testBit_shiftRight, Nat.testBit_two_pow_sub_one]
  rcases le_or_lt k i with hki | hki
  · have e : k + (i - k) = i := by omega
    rw [e]
    rcases lt_or_le i 64 with hi | hi
    · have h2 : i - k < 64 - k := by omega
      simp [hki, h2]
    · have hxi : x.testBit i = false :=
        Nat.testBit_lt_two_pow (lt_of_lt_of_le hx (Nat.pow_le_pow_right (by norm_num) hi))
      simp [hxi]
  · simp [Nat.not_le.mpr hki]

/-! ## The alignment invariant -/

/-- The alignments the pipeline can actually produce: 1, 2, 4 or 8. -/
@[reducible] def alignIn (sh : TypeShape) : Prop :=
  sh.alignment = 1 ∨ sh.alignment = 2 ∨ sh.alignment = 4 ∨ sh.alignment = 8

lemma alignIn_mk {s a : Nat} {al : List (TypeShape × Nat)} :
    alignIn (.mk s a al) ↔ (a = 1 ∨ a = 2 ∨ a = 4 ∨ a = 8) := Iff.rfl

lemma alignIn_pos {sh : TypeShape} (h : alignIn sh) : 0 < sh.alignment := by
  rcases h with h | h | h | h <;> omega

lemma alignIn_pow2 {sh : TypeShape} (h : alignIn sh) : ∃ k, sh.alignment = 2 ^ k := by
  rcases h with h | h | h | h
  exacts [⟨0, by omega⟩, ⟨1, by omega⟩, ⟨2, by omega⟩, ⟨3, by omega⟩]

lemma dvd_of_align_le {a b : Nat}
    (ha : a = 1 ∨ a = 2 ∨ a = 4 ∨ a = 8) (hb : b = 1 ∨ b = 2 ∨ b = 4 ∨ b = 8)
    (hab : a ≤ b) : a ∣ b := by
  rcases ha with h | h | h | h <;> rcases hb with h' | h' | h' | h' <;>
    subst h <;> subst h' <;> omega

lemma align_dvd_sizeTMod {a : Nat} (ha : a = 1 ∨ a = 2 ∨ a = 4 ∨ a = 8) :
    a ∣ sizeTMod := by
  rcases ha with h | h | h | h <;> subst h <;> decide

lemma UnionShape_alignment (l r : TypeShape) :
    (UnionShape l r).alignment = max l.alignment r.alignment := rfl

lemma alignIn_UnionShape {l r : TypeShape} (hl : alignIn l) (hr : alignIn r) :
    alignIn (UnionShape l r) := by
  have h := UnionShape_alignment l r
  unfold alignIn at *
  rcases hl with h1 | h1 | h1 | h1 <;> rcases hr with h2 | h2 | h2 | h2 <;> omega

/-- `UnionShape` computes exactly "max size rounded up to max alignment"
when the alignments are the ones the pipeline produces and the result
does not overflow `size_t`. -/
lemma UnionShape_eq (l r : TypeShape) (hl : alignIn l) (hr : alignIn r)
    (hov : max l.size r.size + max l.alignment r.alignment ≤ sizeTMod) :
    UnionShape l r =
      .mk (roundUpTo (max l.size r.size) (max l.alignment r.alignment))
        (max l.alignment r.alignment) [] := by
  obtain ⟨k, hk, hk3⟩ : ∃ k, max l.alignment r.alignment = 2 ^ k ∧ k ≤ 3 := by
    unfold alignIn at hl hr
    rcases hl with h | h | h | h <;> rcases hr with h' | h' | h' | h' <;> rw [h, h'] <;>
      first
        | exact ⟨0, by decide, by decide⟩
        | exact ⟨1, by decide, by decide⟩
        | exact ⟨2, by decide, by decide⟩
        | exact ⟨3, by decide, by decide⟩
  have hW : sizeTMod = 2 ^ 64 := rfl
  have h2k : (0 : Nat) < 2 ^ k := Nat.pos_pow_of_pos k (by norm_num)
  have h2k8 : (2 : Nat) ^ k ≤ 8 := by
    calc (2 : Nat) ^ k ≤ 2 ^ 3 := Nat.pow_le_pow_right (by norm_num) hk3
      _ = 8 := by norm_num
  unfold UnionShape
  simp only []
  rw [hk]
  have ham1 : (2 ^ k + (sizeTMod - 1)) % sizeTMod = 2 ^ k - 1 := by
    rw [hW]
    have h1 : 2 ^ k + (2 ^ 64 - 1) = (2 ^ k - 1) + 2 ^ 64 := by
      have : (2 : Nat) ^ 64 = 18446744073709551616 := by norm_num
      omega
    rw [h1, Nat.add_mod_right, Nat.mod_eq_of_lt]
    have : (2 : Nat) ^ 64 = 18446744073709551616 := by norm_num
    omega
  rw [ham1]
  have hd64 : max l.size r.size + (2 ^ k - 1) < 2 ^ 64 := by
    rw [hW, hk] at hov
    omega
  have hs2 : (max l.size r.size + (2 ^ k - 1)) % sizeTMod = max l.size r.size + 2 ^ k - 1 := by
    rw [hW, Nat.mod_eq_of_lt hd64]
    omega
  rw [hs2]
  have hmask : (sizeTMod - 1) - (2 ^ k - 1) = 2 ^ 64 - 2 ^ k := by
    rw [hW]
    omega
  rw [hmask]
  have hland := land_high_mask k (max l.size r.size + 2 ^ k - 1) (by omega) (by omega)
  rw [hland]
  rfl

/-- Maximum of the member sizes (0 for the empty list). -/
def maxSizeList (shapes : List TypeShape) : Nat :=
  shapes.foldr (fun sh acc => max sh.size acc) 0

/-- Maximum of the member alignments (0 for the empty list). -/
def maxAlignList (shapes : List TypeShape) : Nat :=
  shapes.foldr (fun sh acc => max sh.alignment acc) 0

@[simp] lemma maxSizeList_nil : maxSizeList [] = 0 := rfl

@[simp] lemma maxSizeList_cons (sh : TypeShape) (l : List TypeShape) :
    maxSizeList (sh :: l) = max sh.size (maxSizeList l) := rfl

@[simp] lemma maxAlignList_nil : maxAlignList [] = 0 := rfl

@[simp] lemma maxAlignList_cons (sh : TypeShape) (l : List TypeShape) :
    maxAlignList (sh :: l) = max sh.alignment (maxAlignList l) := rfl

lemma maxAlignList_cases {l : List TypeShape} (h : ∀ sh ∈ l, alignIn sh) :
    maxAlignList l = 0 ∨ maxAlignList l = 1 ∨ maxAlignList l = 2 ∨
      maxAlignList l = 4 ∨ maxAlignList l = 8 := by
  induction l with
  | nil => simp
  | cons sh rest ih =>
    have h1 := h sh (List.mem_cons_self sh rest)
    have h2 := ih (fun x hx => h x (List.mem_cons_of_mem sh hx))
    unfold alignIn at h1
    simp only [maxAlignList_cons]
    rcases h1 with e | e | e | e <;> rcases h2 with e' | e' | e' | e' | e' <;> omega

/-- The `UnionShape` fold of `ResolveUnionInfo`, started from an already
rounded accumulator, computes max-size-rounded-up with max alignment. -/
lemma foldl_UnionShape_formula :
    ∀ (shapes : List TypeShape), (∀ sh ∈ shapes, alignIn sh) →
    ∀ (s a : Nat), (a = 1 ∨ a = 2 ∨ a = 4 ∨ a = 8) →
    max s (maxSizeList shapes) + max a (maxAlignList shapes) ≤ sizeTMod →
    shapes.foldl UnionShape (.mk (roundUpTo s a) a []) =
      .mk (roundUpTo (max s (maxSizeList shapes)) (max a (maxAlignList shapes)))
        (max a (maxAlignList shapes)) [] := by
  intro shapes
  induction shapes with
  | nil =>
    intro _ s a _ _
    simp
  | cons sh rest ih =>
    intro halign s a ha hov
    have hsh : alignIn sh := halign sh (List.mem_cons_self sh rest)
    have hrest : ∀ x ∈ rest, alignIn x := fun x hx => halign x (List.mem_cons_of_mem sh hx)
    have hapos : 0 < a := by omega
    have hshpos : 0 < sh.alignment := alignIn_pos hsh
    -- the overall maxima
    set Sall := max s (maxSizeList (sh :: rest)) with hSall
    set Aall := max a (maxAlignList (sh :: rest)) with hAall
    have hAallcases : Aall = 1 ∨ Aall = 2 ∨ Aall = 4 ∨ Aall = 8 := by
      have h1 := maxAlignList_cases hrest
      unfold alignIn at hsh
      rw [hAall, maxAlignList_cons]
      rcases ha with e | e | e | e <;> rcases hsh with e' | e' | e' | e' <;>
        rcases h1 with e'' | e'' | e'' | e'' | e'' <;> omega
    have hAallpos : 0 < Aall := by omega
    have hAalldvd : Aall ∣ sizeTMod := align_dvd_sizeTMod hAallcases
    have hSallle : Sall ≤ sizeTMod - Aall := by omega
    have hSalldvd : Aall ∣ sizeTMod - Aall := Nat.dvd_sub' hAalldvd dvd_rfl
    have hrub : roundUpTo Sall Aall ≤ sizeTMod - Aall :=
      roundUpTo_min _ _ _ hAallpos hSallle hSalldvd
    have haA : a ∣ Aall := dvd_of_align_le ha hAallcases (by rw [hAall]; exact le_max_left _ _)
    have hrsa : roundUpTo s a ≤ roundUpTo Sall Aall := by
      calc roundUpTo s a ≤ roundUpTo Sall a :=
            roundUpTo_le_of_le _ _ _ hapos (by rw [hSall]; exact le_max_left _ _)
        _ ≤ roundUpTo Sall Aall := roundUpTo_le_of_dvd _ _ _ hapos hAallpos haA
    -- one `UnionShape` step
    rw [List.foldl_cons]
    have hstep : UnionShape (.mk (roundUpTo s a) a []) sh =
        .mk (roundUpTo (max (roundUpTo s a) sh.size) (max a sh.alignment))
          (max a sh.alignment) [] := by
      apply UnionShape_eq _ _ (alignIn_mk.mpr ha) hsh
      show max (roundUpTo s a) sh.size + max a sh.alignment ≤ sizeTMod
      have hshsize : sh.size ≤ Sall := by
        rw [hSall, maxSizeList_cons]
        omega
      have hshsize2 : sh.size ≤ sizeTMod - Aall := le_trans hshsize hSallle
      have hmaxa : max a sh.alignment ≤ Aall := by
        rw [hAall, maxAlignList_cons]
        omega
      have : max (roundUpTo s a) sh.size ≤ sizeTMod - Aall := by
        apply max_le (le_trans hrsa hrub) hshsize2
      omega
    rw [hstep]
    have habs : roundUpTo (max (roundUpTo s a) sh.size) (max a sh.alignment) =
        roundUpTo (max s sh.size) (max a sh.alignment) := by
      apply roundUpTo_absorb _ _ _ _ hapos (by omega) _
      exact dvd_of_align_le ha
        (by unfold alignIn at hsh; rcases ha with e | e | e | e <;>
              rcases hsh with e' | e' | e' | e' <;> omega)
        (le_max_left _ _)
    rw [habs]
    have hms : max (max s sh.size) (maxSizeList rest) = Sall := by
      rw [hSall, maxSizeList_cons]
      omega
    have hma : max (max a sh.alignment) (maxAlignList rest) = Aall := by
      rw [hAall, maxAlignList_cons]
      omega
    have ha2 : max a sh.alignment = 1 ∨ max a sh.alignment = 2 ∨
        max a sh.alignment = 4 ∨ max a sh.alignment = 8 := by
      unfold alignIn at hsh
      rcases ha with e | e | e | e <;> rcases hsh with e' | e' | e' | e' <;> omega
    have := ih hrest (max s sh.size) (max a sh.alignment) ha2 (by rw [hms, hma]; omega)
    rw [this, hms, hma]

/-! ## Invariants of the per-type resolvers -/

lemma alignIn_primitiveTypeShape (st : PrimitiveSubtype) : alignIn (primitiveTypeShape st) := by
  cases st <;> exact (by decide)

lemma alignIn_defaultTypeShape : alignIn defaultTypeShape := Or.inl rfl

/-- Every shape produced by `ResolveType` has one of the alignments
1, 2, 4, 8. -/
lemma resolveType_alignIn (m : Module) :
    ∀ (ty : Type') (sh : TypeShape), m.resolveType ty = some sh → alignIn sh := by
  intro ty
  induction ty with
  | array et ec ih =>
    intro sh h
    cases he : m.resolveType et with
    | none => simp [Module.resolveType, he] at h
    | some esh =>
      cases hc : parseIntegerConstant uint64T ec with
      | none => simp [Module.resolveType, he, hc] at h
      | some count =>
        simp only [Module.resolveType, he, hc] at h
        by_cases h0 : count = 0
        · rw [if_pos h0] at h
          exact absurd h (by simp)
        · rw [if_neg h0] at h
          injection h with h
          subst h
          have := ih esh he
          unfold ArrayTypeShape
          rw [alignIn_mk]
          exact this
  | vector et mec ih =>
    intro sh h
    cases he : m.resolveType et with
    | none => simp [Module.resolveType, he] at h
    | some esh =>
      cases mec with
      | none =>
        simp only [Module.resolveType, he, Option.some.injEq] at h
        subst h
        exact alignIn_defaultTypeShape
      | some c =>
        cases hp : parseIntegerConstant int64T (some c) with
        | none => simp [Module.resolveType, he, hp] at h
        | some v =>
          simp only [Module.resolveType, he, hp] at h
          by_cases hv : v ≤ 0
          · rw [if_pos hv] at h
            exact absurd h (by simp)
          · rw [if_neg hv] at h
            injection h with h
            subst h
            exact alignIn_defaultTypeShape
  | string mec =>
    intro sh h
    cases mec with
    | none =>
      simp only [Module.resolveType, Option.some.injEq] at h
      subst h
      exact alignIn_defaultTypeShape
    | some c =>
      cases hp : parseIntegerConstant int64T (some c) with
      | none => simp [Module.resolveType, hp] at h
      | some v =>
        simp only [Module.resolveType, hp] at h
        by_cases hv : v ≤ 0
        · rw [if_pos hv] at h
          exact absurd h (by simp)
        · rw [if_neg hv] at h
          injection h with h
          subst h
          exact alignIn_defaultTypeShape
  | handle =>
    intro sh h
    simp only [Module.resolveType, Option.some.injEq] at h
    subst h
    exact (by decide)
  | request subtype =>
    intro sh h
    simp only [Module.resolveType] at h
    by_cases hr : m.resolveTypeName subtype
    · rw [if_pos hr] at h
      injection h with h
      subst h
      exact (by decide)
    · rw [if_neg hr] at h
      exact absurd h (by simp)
  | primitive st =>
    intro sh h
    simp only [Module.resolveType, Option.some.injEq] at h
    subst h
    exact alignIn_primitiveTypeShape st
  | identifier id =>
    intro sh h
    simp only [Module.resolveType] at h
    by_cases hr : m.resolveTypeName id
    · rw [if_pos hr] at h
      injection h with h
      subst h
      exact alignIn_defaultTypeShape
    · rw [if_neg hr] at h
      exact absurd h (by simp)

lemma resolveUnionMembers_alignIn (m : Module) :
    ∀ (mems : List UnionMember) (scope : List String) (acc ts : TypeShape),
      alignIn acc → m.resolveUnionMembers mems scope acc = some ts → alignIn ts := by
  intro mems
  induction mems with
  | nil =>
    intro scope acc ts hacc h
    simp only [Module.resolveUnionMembers, Option.some.injEq] at h
    subst h
    exact hacc
  | cons mem rest ih =>
    intro scope acc ts hacc h
    simp only [Module.resolveUnionMembers, scopeInsert] at h
    by_cases hmem : mem.name ∈ scope
    · rw [if_pos hmem] at h
      exact absurd h (by simp)
    · rw [if_neg hmem] at h
      simp only [] at h
      cases hr : m.resolveType mem.type with
      | none => rw [hr] at h; exact absurd h (by simp)
      | some msh =>
        rw [hr] at h
        exact ih _ _ _ (alignIn_UnionShape hacc (resolveType_alignIn m mem.type msh hr)) h

lemma forall₂_resolveType_alignIn (m : Module) {mems : List UnionMember}
    {shapes : List TypeShape}
    (hres : List.Forall₂ (fun mem sh => m.resolveType mem.type = some sh) mems shapes) :
    ∀ sh ∈ shapes, alignIn sh := by
  induction hres with
  | nil => intro sh h; exact absurd h (by simp)
  | cons hab _ ih =>
    intro sh h
    rcases List.mem_cons.mp h with h | h
    · subst h
      exact resolveType_alignIn m _ _ hab
    · exact ih sh h

/-- When every member name is fresh and every member type resolves, the
union member loop computes the `UnionShape` fold of the member shapes. -/
lemma resolveUnionMembers_sound (m : Module) {mems : List UnionMember}
    {shapes : List TypeShape}
    (hres : List.Forall₂ (fun mem sh => m.resolveType mem.type = some sh) mems shapes) :
    ∀ (scope : List String) (acc : TypeShape),
      (mems.map UnionMember.name).Nodup →
      (∀ n ∈ mems.map UnionMember.name, n ∉ scope) →
      m.resolveUnionMembers mems scope acc = some (shapes.foldl UnionShape acc) := by
  induction hres with
  | nil =>
    intro scope acc _ _
    simp [Module.resolveUnionMembers]
  | @cons mem sh mems' shapes' hab hrest ih =>
    intro scope acc hnodup hdisj
    have hmem : mem.name ∉ scope := hdisj mem.name (by simp)
    rw [List.map_cons] at hnodup
    obtain ⟨hhd, htl⟩ := List.nodup_cons.mp hnodup
    simp only [Module.resolveUnionMembers, scopeInsert, if_neg hmem, hab, List.foldl_cons]
    apply ih
    · exact htl
    · intro n hn
      have hn' : n ∈ (mem :: mems').map UnionMember.name := by
        simp only [List.map_cons, List.mem_cons]
        exact Or.inr hn
      intro hcon
      rcases List.mem_cons.mp hcon with h | h
      · subst h
        exact hhd hn
      · exact hdisj n hn' h

/-! ## Generic lemmas about the abort-on-first-failure loop -/

lemma runList_pres {α : Type} (f : Module → α → Bool × Module) (P : Module → Prop)
    (hf : ∀ st x, P st → P (f st x).2) :
    ∀ (l : List α) (st : Module), P st → P (runList f st l).2 := by
  intro l
  induction l with
  | nil => intro st h; exact h
  | cons x xs ih =>
    intro st h
    have hx := hf st x h
    unfold runList
    cases hfx : f st x with
    | mk b st' =>
      cases b
      · simpa [hfx] using (by rw [hfx] at hx; exact hx)
      · simp only []
        exact ih st' (by rw [hfx] at hx; exact hx)

lemma runList_eq_state {α : Type} (f : Module → α → Bool × Module)
    (hf : ∀ st x, (f st x).2 = st) :
    ∀ (l : List α) (st : Module), (runList f st l).2 = st := by
  intro l
  induction l with
  | nil => intro st; rfl
  | cons x xs ih =>
    intro st
    unfold runList
    cases hfx : f st x with
    | mk b st' =>
      have : st' = st := by
        have := hf st x
        rw [hfx] at this
        exact this
      subst this
      cases b
      · rfl
      · exact ih _

lemma runList_mono {α : Type} (f : Module → α → Bool × Module) (P : Module → Module → Prop)
    (hrefl : ∀ st, P st st) (htrans : ∀ a b c, P a b → P b c → P a c)
    (hf : ∀ st x, P st (f st x).2) :
    ∀ (l : List α) (st : Module), P st (runList f st l).2 := by
  intro l
  induction l with
  | nil => intro st; exact hrefl st
  | cons x xs ih =>
    intro st
    unfold runList
    cases hfx : f st x with
    | mk b st' =>
      have h1 : P st st' := by
        have := hf st x
        rw [hfx] at this
        exact this
      cases b
      · exact h1
      · exact htrans _ _ _ h1 (ih st')

/-- When the loop succeeds, every element's key (extracted with `g`) is
registered in the final state, provided each step registers its own key
and registration is monotone. -/
lemma runList_registers {α : Type} (f : Module → α → Bool × Module) (g : α → String)
    (hstep : ∀ st x st', f st x = (true, st') → g x ∈ st'.registeredTypes)
    (hmono : ∀ st x n, n ∈ st.registeredTypes → n ∈ (f st x).2.registeredTypes) :
    ∀ (l : List α) (st st' : Module), runList f st l = (true, st') →
      ∀ x ∈ l, g x ∈ st'.registeredTypes := by
  intro l
  induction l with
  | nil =>
    intro st st' _ x hx
    exact absurd hx (by simp)
  | cons y ys ih =>
    intro st st' h x hx
    unfold runList at h
    cases hfy : f st y with
    | mk b st1 =>
      rw [hfy] at h
      cases b
      · exact absurd h (by simp)
      · simp only [] at h
        rcases List.mem_cons.mp hx with hxy | hxy
        · subst hxy
          have h1 : g x ∈ st1.registeredTypes := hstep st x st1 hfy
          have h2 := runList_mono f
            (fun a b => ∀ n, n ∈ a.registeredTypes → n ∈ b.registeredTypes)
            (fun _ _ hn => hn) (fun _ _ _ hab hbc n hn => hbc n (hab n hn))
            (fun st2 x2 n hn => hmono st2 x2 n hn) ys st1
          rw [h] at h2
          exact h2 _ h1
        · exact ih st1 st' h x hxy

/-! ## State facts about the consume pass -/

/-- Consume steps never touch the resolved map and only grow the
registry. -/
def ConsumeRel (a b : Module) : Prop :=
  b.resolvedTypes = a.resolvedTypes ∧ ∀ n, n ∈ a.registeredTypes → n ∈ b.registeredTypes

lemma consumeRel_refl (m : Module) : ConsumeRel m m := ⟨rfl, fun _ h => h⟩

lemma consumeRel_trans {a b c : Module} (h1 : ConsumeRel a b) (h2 : ConsumeRel b c) :
    ConsumeRel a c :=
  ⟨h2.1.trans h1.1, fun n hn => h2.2 n (h1.2 n hn)⟩

lemma registerTypeName_rel (m : Module) (x : String) :
    ConsumeRel m (m.registerTypeName x).2 := by
  unfold Module.registerTypeName
  split
  · exact consumeRel_refl m
  · exact ⟨rfl, fun n hn => List.mem_cons_of_mem x hn⟩

lemma registerTypeName_true {m m' : Module} {x : String}
    (h : m.registerTypeName x = (true, m')) : x ∈ m'.registeredTypes := by
  unfold Module.registerTypeName at h
  split at h
  · exact absurd h (by simp)
  · injection h with _ h2
    subst h2
    exact List.mem_cons_self x _

lemma runList_rel {α : Type} (f : Module → α → Bool × Module)
    (hf : ∀ st x, ConsumeRel st (f st x).2) :
    ∀ (l : List α) (st : Module), ConsumeRel st (runList f st l).2 :=
  runList_mono f ConsumeRel consumeRel_refl (fun _ _ _ => consumeRel_trans) hf

lemma consumeConstDeclaration_rel (m : Module) (d : ConstDeclaration) :
    ConsumeRel m (m.consumeConstDeclaration d).2 := by
  unfold Module.consumeConstDeclaration
  cases h : m.registerTypeName d.identifier with
  | mk b m' =>
    have h1 : ConsumeRel m m' := by
      have := registerTypeName_rel m d.identifier
      rw [h] at this
      exact this
    cases b
    · exact h1
    · exact consumeRel_trans h1 ⟨rfl, fun _ hn => hn⟩

lemma consumeEnumDeclaration_rel (m : Module) (d : EnumDeclaration) :
    ConsumeRel m (m.consumeEnumDeclaration d).2 := by
  unfold Module.consumeEnumDeclaration
  cases h : m.registerTypeName d.identifier with
  | mk b m' =>
    have h1 : ConsumeRel m m' := by
      have := registerTypeName_rel m d.identifier
      rw [h] at this
      exact this
    cases b
    · exact h1
    · exact consumeRel_trans h1 ⟨rfl, fun _ hn => hn⟩

lemma consumeUnionDeclaration_rel (m : Module) (d : UnionDeclaration) :
    ConsumeRel m (m.consumeUnionDeclaration d).2 := by
  unfold Module.consumeUnionDeclaration
  cases h : m.registerTypeName d.identifier with
  | mk b m' =>
    have h1 : ConsumeRel m m' := by
      have := registerTypeName_rel m d.identifier
      rw [h] at this
      exact this
    cases b
    · exact h1
    · exact consumeRel_trans h1 ⟨rfl, fun _ hn => hn⟩

lemma consumeInterfaceDeclaration_rel (m : Module) (d : InterfaceDeclaration) :
    ConsumeRel m (m.consumeInterfaceDeclaration d).2 := by
  unfold Module.consumeInterfaceDeclaration
  cases h1 : runList Module.consumeConstDeclaration m d.constMembers with
  | mk b1 m1 =>
    have r1 : ConsumeRel m m1 := by
      have := runList_rel Module.consumeConstDeclaration consumeConstDeclaration_rel
        d.constMembers m
      rw [h1] at this
      exact this
    cases b1
    · exact r1
    · simp only []
      cases h2 : runList Module.consumeEnumDeclaration m1 d.enumMembers with
      | mk b2 m2 =>
        have r2 : ConsumeRel m1 m2 := by
          have := runList_rel Module.consumeEnumDeclaration consumeEnumDeclaration_rel
            d.enumMembers m1
          rw [h2] at this
          exact this
        cases b2
        · exact consumeRel_trans r1 r2
        · simp only []
          cases hm : consumeMethods d.methodMembers with
          | none => exact consumeRel_trans r1 r2
          | some methods =>
            simp only []
            cases h3 : m2.registerTypeName d.identifier with
            | mk b3 m3 =>
              have r3 : ConsumeRel m2 m3 := by
                have := registerTypeName_rel m2 d.identifier
                rw [h3] at this
                exact this
              cases b3
              · exact consumeRel_trans (consumeRel_trans r1 r2) r3
              · exact consumeRel_trans (consumeRel_trans (consumeRel_trans r1 r2) r3) ⟨rfl, fun _ hn => hn⟩

lemma consumeStructDeclaration_rel (m : Module) (d : StructDeclaration) :
    ConsumeRel m (m.consumeStructDeclaration d).2 := by
  unfold Module.consumeStructDeclaration
  cases h1 : runList Module.consumeConstDeclaration m d.constMembers with
  | mk b1 m1 =>
    have r1 : ConsumeRel m m1 := by
      have := runList_rel Module.consumeConstDeclaration consumeConstDeclaration_rel
        d.constMembers m
      rw [h1] at this
      exact this
    cases b1
    · exact r1
    · simp only []
      cases h2 : runList Module.consumeEnumDeclaration m1 d.enumMembers with
      | mk b2 m2 =>
        have r2 : ConsumeRel m1 m2 := by
          have := runList_rel Module.consumeEnumDeclaration consumeEnumDeclaration_rel
            d.enumMembers m1
          rw [h2] at this
          exact this
        cases b2
        · exact consumeRel_trans r1 r2
        · simp only []
          cases h3 : m2.registerTypeName d.identifier with
          | mk b3 m3 =>
            have r3 : ConsumeRel m2 m3 := by
              have := registerTypeName_rel m2 d.identifier
              rw [h3] at this
              exact this
            cases b3
            · exact consumeRel_trans (consumeRel_trans r1 r2) r3
            · exact consumeRel_trans (consumeRel_trans (consumeRel_trans r1 r2) r3) ⟨rfl, fun _ hn => hn⟩

lemma consumeFile_rel (m : Module) (f : File) :
    ConsumeRel m (m.consumeFile f).2 := by
  unfold Module.consumeFile
  cases h1 : runList Module.consumeConstDeclaration m f.constDeclarationList with
  | mk b1 m1 =>
    have r1 : ConsumeRel m m1 := by
      have := runList_rel Module.consumeConstDeclaration consumeConstDeclaration_rel
        f.constDeclarationList m
      rw [h1] at this
      exact this
    cases b1
    · exact r1
    · simp only []
      cases h2 : runList Module.consumeEnumDeclaration m1 f.enumDeclarationList with
      | mk b2 m2 =>
        have r2 : ConsumeRel m1 m2 := by
          have := runList_rel Module.consumeEnumDeclaration consumeEnumDeclaration_rel
            f.enumDeclarationList m1
          rw [h2] at this
          exact this
        cases b2
        · exact consumeRel_trans r1 r2
        · simp only []
          cases h3 : runList Module.consumeInterfaceDeclaration m2 f.interfaceDeclarationList with
          | mk b3 m3 =>
            have r3 : ConsumeRel m2 m3 := by
              have := runList_rel Module.consumeInterfaceDeclaration
                consumeInterfaceDeclaration_rel f.interfaceDeclarationList m2
              rw [h3] at this
              exact this
            cases b3
            · exact consumeRel_trans (consumeRel_trans r1 r2) r3
            · simp only []
              cases h4 : runList Module.consumeStructDeclaration m3 f.structDeclarationList with
              | mk b4 m4 =>
                have r4 : ConsumeRel m3 m4 := by
                  have := runList_rel Module.consumeStructDeclaration
                    consumeStructDeclaration_rel f.structDeclarationList m3
                  rw [h4] at this
                  exact this
                cases b4
                · exact consumeRel_trans (consumeRel_trans (consumeRel_trans r1 r2) r3) r4
                · simp only []
                  have r5 : ConsumeRel m4 (runList Module.consumeUnionDeclaration m4
                      f.unionDeclarationList).2 :=
                    runList_rel Module.consumeUnionDeclaration consumeUnionDeclaration_rel
                      f.unionDeclarationList m4
                  exact consumeRel_trans (consumeRel_trans (consumeRel_trans (consumeRel_trans r1 r2) r3) r4) r5

lemma consumeConstDeclaration_registers {m m' : Module} {d : ConstDeclaration}
    (h : m.consumeConstDeclaration d = (true, m')) :
    d.identifier ∈ m'.registeredTypes := by
  unfold Module.consumeConstDeclaration at h
  cases hr : m.registerTypeName d.identifier with
  | mk b m1 =>
    rw [hr] at h
    cases b
    · exact absurd h (by simp)
    · injection h with _ h2
      subst h2
      show _ ∈ m1.registeredTypes
      exact registerTypeName_true hr

lemma consumeEnumDeclaration_registers {m m' : Module} {d : EnumDeclaration}
    (h : m.consumeEnumDeclaration d = (true, m')) :
    d.identifier ∈ m'.registeredTypes := by
  unfold Module.consumeEnumDeclaration at h
  cases hr : m.registerTypeName d.identifier with
  | mk b m1 =>
    rw [hr] at h
    cases b
    · exact absurd h (by simp)
    · injection h with _ h2
      subst h2
      show _ ∈ m1.registeredTypes
      exact registerTypeName_true hr

lemma consumeUnionDeclaration_registers {m m' : Module} {d : UnionDeclaration}
    (h : m.consumeUnionDeclaration d = (true, m')) :
    d.identifier ∈ m'.registeredTypes := by
  unfold Module.consumeUnionDeclaration at h
  cases hr : m.registerTypeName d.identifier with
  | mk b m1 =>
    rw [hr] at h
    cases b
    · exact absurd h (by simp)
    · injection h with _ h2
      subst h2
      show _ ∈ m1.registeredTypes
      exact registerTypeName_true hr

lemma consumeInterfaceDeclaration_registers {m m' : Module} {d : InterfaceDeclaration}
    (h : m.consumeInterfaceDeclaration d = (true, m')) :
    d.identifier ∈ m'.registeredTypes := by
  unfold Module.consumeInterfaceDeclaration at h
  cases h1 : runList Module.consumeConstDeclaration m d.constMembers with
  | mk b1 m1 =>
    rw [h1] at h
    cases b1
    · exact absurd h (by simp)
    · simp only [] at h
      cases h2 : runList Module.consumeEnumDeclaration m1 d.enumMembers with
      | mk b2 m2 =>
        rw [h2] at h
        cases b2
        · exact absurd h (by simp)
        · simp only [] at h
          cases hm : consumeMethods d.methodMembers with
          | none => rw [hm] at h; exact absurd h (by simp)
          | some methods =>
            rw [hm] at h
            simp only [] at h
            cases h3 : m2.registerTypeName d.identifier with
            | mk b3 m3 =>
              rw [h3] at h
              cases b3
              · exact absurd h (by simp)
              · injection h with _ h4
                subst h4
                show _ ∈ m3.registeredTypes
                exact registerTypeName_true h3

lemma consumeStructDeclaration_registers {m m' : Module} {d : StructDeclaration}
    (h : m.consumeStructDeclaration d = (true, m')) :
    d.identifier ∈ m'.registeredTypes := by
  unfold Module.consumeStructDeclaration at h
  cases h1 : runList Module.consumeConstDeclaration m d.constMembers with
  | mk b1 m1 =>
    rw [h1] at h
    cases b1
    · exact absurd h (by simp)
    · simp only [] at h
      cases h2 : runList Module.consumeEnumDeclaration m1 d.enumMembers with
      | mk b2 m2 =>
        rw [h2] at h
        cases b2
        · exact absurd h (by simp)
        · simp only [] at h
          cases h3 : m2.registerTypeName d.identifier with
          | mk b3 m3 =>
            rw [h3] at h
            cases b3
            · exact absurd h (by simp)
            · injection h with _ h4
              subst h4
              show _ ∈ m3.registeredTypes
              exact registerTypeName_true h3

/-! ## State facts about the resolve pass -/

lemma resolveConstInfo_state (m : Module) (ci : ConstInfo) :
    (m.resolveConstInfo ci).2 = m := rfl

lemma resolveInterfaceInfo_state (m : Module) (ii : InterfaceInfo) :
    (m.resolveInterfaceInfo ii).2 = m := rfl

lemma resolveStructInfo_state (m : Module) (si : StructInfo) :
    (m.resolveStructInfo si).2 = m := rfl

/-- A duplicate insertion into the resolved map is rejected and leaves
the map unchanged. -/
lemma registerResolvedType_dup (m : Module) (n : String) (sh : TypeShape)
    (h : (m.resolvedTypes.lookup n).isSome = true) :
    m.registerResolvedType n sh = (false, m) := by
  unfold Module.registerResolvedType
  rw [if_pos h]

lemma lookup_cons_eq_or {n k : String} {sh sh' : TypeShape} {l : List (String × TypeShape)}
    (h : ((k, sh') :: l).lookup n = some sh) : (k = n ∧ sh' = sh) ∨ l.lookup n = some sh := by
  simp only [List.lookup] at h
  by_cases he : k = n
  · subst he
    rw [beq_self_eq_true] at h
    simp only [] at h
    injection h with h
    exact Or.inl ⟨rfl, h⟩
  · rw [beq_eq_false_iff_ne.mpr (Ne.symm he)] at h
    exact Or.inr h

lemma lookup_isSome_cons {n k : String} {sh' : TypeShape} {l : List (String × TypeShape)}
    (h : (((k, sh') :: l).lookup n).isSome = true) :
    k = n ∨ (l.lookup n).isSome = true := by
  cases hl : ((k, sh') :: l).lookup n with
  | none => rw [hl] at h; exact absurd h (by simp)
  | some sh =>
    rcases lookup_cons_eq_or hl with ⟨he, _⟩ | hrest
    · exact Or.inl he
    · exact Or.inr (by rw [hrest]; rfl)

/-- Resolvers change nothing but the resolved map. -/
def ResolveRel (a b : Module) : Prop :=
  b.constInfos = a.constInfos ∧ b.enumInfos = a.enumInfos ∧
  b.interfaceInfos = a.interfaceInfos ∧ b.structInfos = a.structInfos ∧
  b.unionInfos = a.unionInfos ∧ b.registeredTypes = a.registeredTypes

lemma resolveRel_refl (m : Module) : ResolveRel m m :=
  ⟨rfl, rfl, rfl, rfl, rfl, rfl⟩

lemma resolveRel_trans {a b c : Module} (h1 : ResolveRel a b) (h2 : ResolveRel b c) :
    ResolveRel a c :=
  ⟨h2.1.trans h1.1, h2.2.1.trans h1.2.1, h2.2.2.1.trans h1.2.2.1,
   h2.2.2.2.1.trans h1.2.2.2.1, h2.2.2.2.2.1.trans h1.2.2.2.2.1,
   h2.2.2.2.2.2.trans h1.2.2.2.2.2⟩

lemma registerResolvedType_rel (m : Module) (n : String) (sh : TypeShape) :
    ResolveRel m (m.registerResolvedType n sh).2 := by
  unfold Module.registerResolvedType
  split
  · exact resolveRel_refl m
  · exact ⟨rfl, rfl, rfl, rfl, rfl, rfl⟩

lemma resolveEnumInfo_rel (m : Module) (ei : EnumInfo) :
    ResolveRel m (m.resolveEnumInfo ei).2 := by
  unfold Module.resolveEnumInfo
  rcases htype : ei.type <;> simp only [Module.resolveType] <;>
    first
      | exact resolveRel_refl m
      | exact registerResolvedType_rel m ei.name _

lemma resolveUnionInfo_rel (m : Module) (ui : UnionInfo) :
    ResolveRel m (m.resolveUnionInfo ui).2 := by
  unfold Module.resolveUnionInfo
  cases hr : m.resolveUnionMembers ui.members [] defaultTypeShape with
  | none => exact resolveRel_refl m
  | some ts => exact registerResolvedType_rel m ui.name ts

lemma resolve_rel (m : Module) : ResolveRel m m.resolve.2 := by
  unfold Module.resolve
  cases h1 : runList Module.resolveConstInfo m m.constInfos with
  | mk b1 m1 =>
    have r1 : ResolveRel m m1 := by
      have := runList_mono Module.resolveConstInfo ResolveRel resolveRel_refl
        (fun _ _ _ => resolveRel_trans)
        (fun st x => by rw [resolveConstInfo_state]; exact resolveRel_refl st) m.constInfos m
      rw [h1] at this
      exact this
    cases b1
    · exact r1
    · simp only []
      cases h2 : runList Module.resolveEnumInfo m1 m1.enumInfos with
      | mk b2 m2 =>
        have r2 : ResolveRel m1 m2 := by
          have := runList_mono Module.resolveEnumInfo ResolveRel resolveRel_refl
            (fun _ _ _ => resolveRel_trans) resolveEnumInfo_rel m1.enumInfos m1
          rw [h2] at this
          exact this
        cases b2
        · exact resolveRel_trans r1 r2
        · simp only []
          cases h3 : runList Module.resolveInterfaceInfo m2 m2.interfaceInfos with
          | mk b3 m3 =>
            have r3 : ResolveRel m2 m3 := by
              have := runList_mono Module.resolveInterfaceInfo ResolveRel resolveRel_refl
                (fun _ _ _ => resolveRel_trans)
                (fun st x => by rw [resolveInterfaceInfo_state]; exact resolveRel_refl st)
                m2.interfaceInfos m2
              rw [h3] at this
              exact this
            cases b3
            · exact resolveRel_trans (resolveRel_trans r1 r2) r3
            · simp only []
              cases h4 : runList Module.resolveStructInfo m3 m3.structInfos with
              | mk b4 m4 =>
                have r4 : ResolveRel m3 m4 := by
                  have := runList_mono Module.resolveStructInfo ResolveRel resolveRel_refl
                    (fun _ _ _ => resolveRel_trans)
                    (fun st x => by rw [resolveStructInfo_state]; exact resolveRel_refl st)
                    m3.structInfos m3
                  rw [h4] at this
                  exact this
                cases b4
                · exact resolveRel_trans (resolveRel_trans (resolveRel_trans r1 r2) r3) r4
                · simp only []
                  have r5 : ResolveRel m4 (runList Module.resolveUnionInfo m4 m4.unionInfos).2 :=
                    runList_mono Module.resolveUnionInfo ResolveRel resolveRel_refl
                      (fun _ _ _ => resolveRel_trans) resolveUnionInfo_rel m4.unionInfos m4
                  exact resolveRel_trans (resolveRel_trans (resolveRel_trans (resolveRel_trans r1 r2) r3) r4) r5

/-! ## Where resolved-map entries come from -/

lemma runList_lookup_source {α : Type} (f : Module → α → Bool × Module) (g : α → String)
    (hf : ∀ st x n, (((f st x).2).resolvedTypes.lookup n).isSome = true →
          (st.resolvedTypes.lookup n).isSome = true ∨ n = g x) :
    ∀ (l : List α) (st : Module) (n : String),
      (((runList f st l).2).resolvedTypes.lookup n).isSome = true →
      (st.resolvedTypes.lookup n).isSome = true ∨ n ∈ l.map g := by
  intro l
  induction l with
  | nil =>
    intro st n h
    exact Or.inl h
  | cons x xs ih =>
    intro st n h
    unfold runList at h
    cases hfx : f st x with
    | mk b st1 =>
      rw [hfx] at h
      have hst1 : (st1.resolvedTypes.lookup n).isSome = true →
          (st.resolvedTypes.lookup n).isSome = true ∨ n = g x := by
        intro hh
        have := hf st x n
        rw [hfx] at this
        exact this hh
      cases b
      · simp only [] at h
        rcases hst1 h with h' | h'
        · exact Or.inl h'
        · exact Or.inr (by simp [h'])
      · simp only [] at h
        rcases ih st1 n h with h' | h'
        · rcases hst1 h' with h'' | h''
          · exact Or.inl h''
          · exact Or.inr (by simp [h''])
        · exact Or.inr (by simp [h'])

lemma registerResolvedType_lookup_source (m : Module) (k : String) (sh : TypeShape) :
    ∀ n, (((m.registerResolvedType k sh).2).resolvedTypes.lookup n).isSome = true →
      (m.resolvedTypes.lookup n).isSome = true ∨ n = k := by
  intro n
  unfold Module.registerResolvedType
  split
  · exact fun h => Or.inl h
  · intro h
    rcases lookup_isSome_cons h with he | hrest
    · exact Or.inr he.symm
    · exact Or.inl hrest

lemma resolveEnumInfo_lookup_source (m : Module) (ei : EnumInfo) :
    ∀ n, (((m.resolveEnumInfo ei).2).resolvedTypes.lookup n).isSome = true →
      (m.resolvedTypes.lookup n).isSome = true ∨ n = ei.name := by
  unfold Module.resolveEnumInfo
  rcases htype : ei.type <;> simp only [Module.resolveType] <;>
    first
      | exact fun n h => Or.inl h
      | exact registerResolvedType_lookup_source m ei.name _

lemma resolveUnionInfo_lookup_source (m : Module) (ui : UnionInfo) :
    ∀ n, (((m.resolveUnionInfo ui).2).resolvedTypes.lookup n).isSome = true →
      (m.resolvedTypes.lookup n).isSome = true ∨ n = ui.name := by
  unfold Module.resolveUnionInfo
  cases hr : m.resolveUnionMembers ui.members [] defaultTypeShape with
  | none => exact fun n h => Or.inl h
  | some ts => exact registerResolvedType_lookup_source m ui.name ts

/-- Entries of the resolved map after `Resolve` come from the map before,
from an enum declaration, or from a union declaration — const, interface
and struct resolution never insert. -/
lemma resolve_lookup_source (m : Module) :
    ∀ n, (((m.resolve).2).resolvedTypes.lookup n).isSome = true →
      (m.resolvedTypes.lookup n).isSome = true ∨
      n ∈ m.enumInfos.map EnumInfo.name ∨ n ∈ m.unionInfos.map UnionInfo.name := by
  intro n
  unfold Module.resolve
  cases h1 : runList Module.resolveConstInfo m m.constInfos with
  | mk b1 m1 =>
    have e1 : m1 = m := by
      have := runList_eq_state Module.resolveConstInfo resolveConstInfo_state m.constInfos m
      rw [h1] at this
      exact this
    subst e1
    cases b1
    · exact fun h => Or.inl h
    · simp only []
      cases h2 : runList Module.resolveEnumInfo m1 m1.enumInfos with
      | mk b2 m2 =>
        have hsrc2 : (m2.resolvedTypes.lookup n).isSome = true →
            (m1.resolvedTypes.lookup n).isSome = true ∨ n ∈ m1.enumInfos.map EnumInfo.name := by
          intro hh
          have := runList_lookup_source Module.resolveEnumInfo EnumInfo.name
            resolveEnumInfo_lookup_source m1.enumInfos m1 n
          rw [h2] at this
          exact this hh
        have r2 : ResolveRel m1 m2 := by
          have := runList_mono Module.resolveEnumInfo ResolveRel resolveRel_refl
            (fun _ _ _ => resolveRel_trans) resolveEnumInfo_rel m1.enumInfos m1
          rw [h2] at this
          exact this
        cases b2
        · intro h
          rcases hsrc2 h with h' | h'
          · exact Or.inl h'
          · exact Or.inr (Or.inl h')
        · simp only []
          cases h3 : runList Module.resolveInterfaceInfo m2 m2.interfaceInfos with
          | mk b3 m3 =>
            have e3 : m3 = m2 := by
              have := runList_eq_state Module.resolveInterfaceInfo resolveInterfaceInfo_state
                m2.interfaceInfos m2
              rw [h3] at this
              exact this
            subst e3
            cases b3
            · intro h
              rcases hsrc2 h with h' | h'
              · exact Or.inl h'
              · exact Or.inr (Or.inl h')
            · simp only []
              cases h4 : runList Module.resolveStructInfo m3 m3.structInfos with
              | mk b4 m4 =>
                have e4 : m4 = m3 := by
                  have := runList_eq_state Module.resolveStructInfo resolveStructInfo_state
                    m3.structInfos m3
                  rw [h4] at this
                  exact this
                subst e4
                cases b4
                · intro h
                  rcases hsrc2 h with h' | h'
                  · exact Or.inl h'
                  · exact Or.inr (Or.inl h')
                · simp only []
                  intro h
                  have hsrc5 := runList_lookup_source Module.resolveUnionInfo UnionInfo.name
                    resolveUnionInfo_lookup_source m4.unionInfos m4 n h
                  have hu : m4.unionInfos = m1.unionInfos := r2.2.2.2.2.1
                  rcases hsrc5 with h' | h'
                  · rcases hsrc2 h' with h'' | h''
                    · exact Or.inl h''
                    · exact Or.inr (Or.inl h'')
                  · rw [hu] at h'
                    exact Or.inr (Or.inr h')

/-! ## Alignment invariant of the resolved map -/

/-- Every shape stored in the resolved map has a pipeline alignment. -/
def MapAligned (m : Module) : Prop :=
  ∀ n sh, m.resolvedTypes.lookup n = some sh → alignIn sh

lemma registerResolvedType_mapAligned {m : Module} {k : String} {sh : TypeShape}
    (hsh : alignIn sh) (hm : MapAligned m) : MapAligned (m.registerResolvedType k sh).2 := by
  unfold Module.registerResolvedType
  split
  · exact hm
  · intro n sh' h
    rcases lookup_cons_eq_or h with ⟨_, he⟩ | hrest
    · rw [← he]
      exact hsh
    · exact hm n sh' hrest

lemma resolveEnumInfo_mapAligned (m : Module) (ei : EnumInfo) (hm : MapAligned m) :
    MapAligned (m.resolveEnumInfo ei).2 := by
  unfold Module.resolveEnumInfo
  rcases htype : ei.type <;> simp only [Module.resolveType] <;>
    first
      | exact hm
      | exact registerResolvedType_mapAligned (alignIn_primitiveTypeShape _) hm

lemma resolveUnionInfo_mapAligned (m : Module) (ui : UnionInfo) (hm : MapAligned m) :
    MapAligned (m.resolveUnionInfo ui).2 := by
  unfold Module.resolveUnionInfo
  cases hr : m.resolveUnionMembers ui.members [] defaultTypeShape with
  | none => exact hm
  | some ts =>
    exact registerResolvedType_mapAligned
      (resolveUnionMembers_alignIn m ui.members [] defaultTypeShape ts
        alignIn_defaultTypeShape hr) hm

lemma resolve_mapAligned (m : Module) (hm : MapAligned m) : MapAligned (m.resolve).2 := by
  unfold Module.resolve
  cases h1 : runList Module.resolveConstInfo m m.constInfos with
  | mk b1 m1 =>
    have p1 : MapAligned m1 := by
      have := runList_pres Module.resolveConstInfo MapAligned
        (fun st x h => by rw [resolveConstInfo_state]; exact h) m.constInfos m hm
      rw [h1] at this
      exact this
    cases b1
    · exact p1
    · simp only []
      cases h2 : runList Module.resolveEnumInfo m1 m1.enumInfos with
      | mk b2 m2 =>
        have p2 : MapAligned m2 := by
          have := runList_pres Module.resolveEnumInfo MapAligned
            (fun st x h => resolveEnumInfo_mapAligned st x h) m1.enumInfos m1 p1
          rw [h2] at this
          exact this
        cases b2
        · exact p2
        · simp only []
          cases h3 : runList Module.resolveInterfaceInfo m2 m2.interfaceInfos with
          | mk b3 m3 =>
            have p3 : MapAligned m3 := by
              have := runList_pres Module.resolveInterfaceInfo MapAligned
                (fun st x h => by rw [resolveInterfaceInfo_state]; exact h)
                m2.interfaceInfos m2 p2
              rw [h3] at this
              exact this
            cases b3
            · exact p3
            · simp only []
              cases h4 : runList Module.resolveStructInfo m3 m3.structInfos with
              | mk b4 m4 =>
                have p4 : MapAligned m4 := by
                  have := runList_pres Module.resolveStructInfo MapAligned
                    (fun st x h => by rw [resolveStructInfo_state]; exact h)
                    m3.structInfos m3 p3
                  rw [h4] at this
                  exact this
                cases b4
                · exact p4
                · simp only []
                  exact runList_pres Module.resolveUnionInfo MapAligned
                    (fun st x h => resolveUnionInfo_mapAligned st x h) m4.unionInfos m4 p4

/-- A module whose resolved map is empty is trivially `MapAligned`. -/
lemma mapAligned_of_nil {m : Module} (h : m.resolvedTypes = []) : MapAligned m := by
  intro n sh hl
  rw [h] at hl
  exact absurd hl (by simp [List.lookup])

/-- The alignment invariant at the end of the whole pipeline. -/
lemma parse_mapAligned (m : Module) (f : File) (hm : m.resolvedTypes = []) :
    MapAligned (m.parse f).2 := by
  unfold Module.parse
  cases hc : m.consumeFile f with
  | mk bc mc =>
    have hmc : mc.resolvedTypes = [] := by
      have := (consumeFile_rel m f).1
      rw [hc] at this
      rw [this, hm]
    cases bc
    · exact mapAligned_of_nil hmc
    · simp only []
      exact resolve_mapAligned mc (mapAligned_of_nil hmc)

/-! ## Characterization of struct member resolution -/

/-- The struct member loop succeeds exactly when the member names are
pairwise distinct, avoid the ambient scope, and every member type
resolves. -/
lemma resolveStructMembers_iff (m : Module) :
    ∀ (mems : List StructMember) (scope : List String),
      m.resolveStructMembers mems scope = true ↔
        ((mems.map StructMember.name).Nodup ∧
         (∀ n ∈ mems.map StructMember.name, n ∉ scope) ∧
         ∀ mem ∈ mems, (m.resolveType mem.type).isSome = true) := by
  intro mems
  induction mems with
  | nil =>
    intro scope
    simp [Module.resolveStructMembers]
  | cons mem rest ih =>
    intro scope
    simp only [Module.resolveStructMembers, scopeInsert]
    by_cases hmem : mem.name ∈ scope
    · rw [if_pos hmem]
      simp only []
      constructor
      · intro h
        exact absurd h (by simp)
      · rintro ⟨_, hdisj, _⟩
        exact absurd hmem (hdisj mem.name (by simp))
    · rw [if_neg hmem]
      simp only []
      by_cases hres : (m.resolveType mem.type).isSome = true
      · rw [if_pos hres, ih (mem.name :: scope)]
        constructor
        · rintro ⟨hnd, hdisj, hall⟩
          refine ⟨?_, ?_, ?_⟩
          · rw [List.map_cons, List.nodup_cons]
            refine ⟨?_, hnd⟩
            intro hmm
            exact (hdisj mem.name hmm) (by simp)
          · intro n hn
            rw [List.map_cons, List.mem_cons] at hn
            rcases hn with he | hn'
            · subst he
              exact hmem
            · intro hns
              exact (hdisj n hn') (List.mem_cons_of_mem _ hns)
          · intro x hx
            rcases List.mem_cons.mp hx with he | hx'
            · subst he
              exact hres
            · exact hall x hx'
        · rintro ⟨hnd, hdisj, hall⟩
          rw [List.map_cons, List.nodup_cons] at hnd
          refine ⟨hnd.2, ?_, ?_⟩
          · intro n hn hcon
            rcases List.mem_cons.mp hcon with he | hns
            · subst he
              exact hnd.1 hn
            · exact hdisj n (by rw [List.map_cons, List.mem_cons]; exact Or.inr hn) hns
          · intro x hx
            exact hall x (List.mem_cons_of_mem _ hx)
      · rw [if_neg hres]
        constructor
        · intro h
          exact absurd h (by simp)
        · rintro ⟨_, _, hall⟩
          exact absurd (hall mem (by simp)) hres

/-! ## Behavior of enum resolution -/

lemma resolveEnumInfo_behavior (m : Module) (ei : EnumInfo)
    (hfresh : (m.resolvedTypes.lookup ei.name).isNone = true) :
    ((ei.type = .bool ∨ ei.type = .float32 ∨ ei.type = .float64) →
      m.resolveEnumInfo ei = (false, m)) ∧
    ((ei.type ≠ .bool ∧ ei.type ≠ .float32 ∧ ei.type ≠ .float64) →
      m.resolveEnumInfo ei =
        (true, { m with resolvedTypes :=
          (ei.name, primitiveTypeShape ei.type) :: m.resolvedTypes })) := by
  have hne : ¬((m.resolvedTypes.lookup ei.name).isSome = true) := by
    rw [Option.isNone_iff_eq_none] at hfresh
    rw [hfresh]
    simp
  constructor
  · intro h
    unfold Module.resolveEnumInfo
    rcases h with h | h | h <;> rw [h]
  · intro ⟨h1, h2, h3⟩
    unfold Module.resolveEnumInfo
    rcases htype : ei.type <;>
      first
        | exact absurd htype h1
        | exact absurd htype h2
        | exact absurd htype h3
        | (simp only [Module.resolveType]
           unfold Module.registerResolvedType
           rw [if_neg hne])

/-! ## Concrete example inputs -/

def exVector5 : Type' := .vector (.primitive .uint8) (some (.literal (.numeric 5)))
def exVectorBadElem : Type' := .vector (.identifier "Missing") (some (.literal (.numeric 5)))
def exArray4 : Type' := .array (.primitive .uint32) (some (.literal (.numeric 4)))
def exArray0 : Type' := .array (.primitive .uint32) (some (.literal (.numeric 0)))
def exUnion : UnionInfo := ⟨"U", [⟨.primitive .uint8, "a"⟩, ⟨.primitive .uint64, "b"⟩]⟩
def exEnumU16 : EnumInfo := ⟨"E", .uint16, []⟩
def exForwardFile : File :=
  ⟨[], [], [],
   [⟨"A", [], [], [⟨.identifier "B", "b", none⟩]⟩,
    ⟨"B", [], [], [⟨.primitive .int32, "x", none⟩]⟩], []⟩
def exDupFile : File :=
  ⟨[], [], [],
   [⟨"Point", [], [], [⟨.primitive .int32, "x", none⟩]⟩,
    ⟨"Point", [], [], [⟨.primitive .int32, "y", none⟩]⟩,
    ⟨"Later", [], [], [⟨.primitive .int32, "z", none⟩]⟩], []⟩
def exStructFile : File :=
  ⟨[], [], [],
   [⟨"S", [], [], [⟨.primitive .uint32, "a", none⟩, ⟨.primitive .uint8, "b", none⟩]⟩], []⟩
def exConstFile : File :=
  ⟨[⟨"c", .primitive .uint32, .literal (.numeric 0)⟩], [], [], [], []⟩
def exUnionFile : File :=
  ⟨[], [], [], [], [⟨"U", [⟨.primitive .uint8, "a"⟩, ⟨.primitive .uint64, "b"⟩]⟩]⟩
def exDupMemberStruct : StructInfo :=
  ⟨"T", [⟨.primitive .int32, "x", none⟩, ⟨.primitive .int32, "x", none⟩]⟩
def exOneMemberStruct : StructInfo := ⟨"W", [⟨.primitive .int32, "x", none⟩]⟩
def exEnumNoSubtype : EnumDeclaration := ⟨"E10", none, ["val"]⟩
def exPrefilled : Module := { initModule with resolvedTypes := [("x", defaultTypeShape)] }
def exRegistered : Module := { initModule with registeredTypes := ["Point"] }

/-- The spec's bound rule for vectors and strings: either no bound, or a
bound constant that evaluates (as `int64_t`) to a strictly positive
value. -/
def boundOk (mc : Option Constant) : Bool :=
  match mc with
  | none => true
  | some c =>
    match parseIntegerConstant int64T (some c) with
    | none => false
    | some v => decide (0 < v)

/-- All top-level declaration names of a file, in the five category
lists. -/
def topLevelNames (f : File) : List String :=
  f.constDeclarationList.map ConstDeclaration.identifier ++
  f.enumDeclarationList.map EnumDeclaration.identifier ++
  f.interfaceDeclarationList.map InterfaceDeclaration.identifier ++
  f.structDeclarationList.map StructDeclaration.identifier ++
  f.unionDeclarationList.map UnionDeclaration.identifier

/-! ## Claims -/

/-- C1, counterexample: `vector<uint8>:5` resolves, but the computed
shape is the default-constructed `TypeShape` — size 0, alignment 1 and
NO child `Allocation` (the claim requires one child `Allocation` with
payload `(1,1)` and bound 5); moreover a vector whose element type does
not resolve fails even with a strictly positive bound, so "fails iff the
bound is non-positive" also does not hold as stated. -/
theorem claim_C1_counterexample :
    initModule.resolveType exVector5 = some defaultTypeShape ∧
    defaultTypeShape.allocations = [] ∧
    defaultTypeShape.size = 0 ∧ defaultTypeShape.alignment = 1 ∧
    initModule.resolveType exVectorBadElem = none :=
  ⟨rfl, rfl, rfl, rfl, rfl⟩

/-- C1 (amended): for vectors (and strings as 1-byte-element vectors),
resolution succeeds iff the element type resolves (vectors only) and the
bound, when present, evaluates to a strictly positive integer — bound 0
is rejected, no bound means unbounded; but on success no header shape
and no child `Allocation` is computed: the result is the untouched
default `TypeShape` `(0,1)` with an empty allocation list (the shape
computation is an open TODO in the code). -/
theorem claim_C1_amended :
    (∀ (m : Module) (e : Type') (mc : Option Constant),
      m.resolveType (.vector e mc) =
        if (m.resolveType e).isSome && boundOk mc then some defaultTypeShape else none) ∧
    (∀ (m : Module) (mc : Option Constant),
      m.resolveType (.string mc) =
        if boundOk mc then some defaultTypeShape else none) ∧
    defaultTypeShape.allocations = [] := by
  refine ⟨?_, ?_, rfl⟩
  · intro m e mc
    cases he : m.resolveType e with
    | none => simp [Module.resolveType, he]
    | some esh =>
      cases mc with
      | none => simp [Module.resolveType, he, boundOk]
      | some c =>
        cases hp : parseIntegerConstant int64T (some c) with
        | none => simp [Module.resolveType, he, hp, boundOk]
        | some v =>
          simp only [Module.resolveType, he, hp, boundOk, Option.isSome_some, Bool.true_and]
          by_cases hv : v ≤ 0
          · rw [if_pos hv]
            have h0 : ¬(0 < v) := by omega
            simp [h0]
          · rw [if_neg hv]
            have h0 : 0 < v := by omega
            simp [h0]
  · intro m mc
    cases mc with
    | none => simp [Module.resolveType, boundOk]
    | some c =>
      cases hp : parseIntegerConstant int64T (some c) with
      | none => simp [Module.resolveType, hp, boundOk]
      | some v =>
        simp only [Module.resolveType, hp, boundOk]
        by_cases hv : v ≤ 0
        · rw [if_pos hv]
          have h0 : ¬(0 < v) := by omega
          simp [h0]
        · rw [if_neg hv]
          have h0 : 0 < v := by omega
          simp [h0]

/-- C2, counterexample: the struct file `struct S { uint32 a; uint8 b; }`
parses successfully, yet the resolved-shape map stays empty — no inline
aligned field layout (which would be size 8, alignment 4 for `S`) is
computed or registered anywhere; struct layout is an open TODO in the
code. -/
theorem claim_C2_counterexample :
    (parseFile exStructFile).1 = true ∧
    (parseFile exStructFile).2.resolvedTypes = [] :=
  ⟨rfl, rfl⟩

/-- C2 (amended): struct members are resolved in declared order inside a
per-struct name-uniqueness scope, so resolution succeeds iff the member
names are pairwise distinct and every member type resolves (in
particular two members named `x` fail); but no inline layout is
computed: struct resolution returns only a boolean and leaves the module
state (including the resolved-shape map) unchanged. -/
theorem claim_C2_amended :
    (∀ (m : Module) (si : StructInfo),
      ((m.resolveStructInfo si).1 = true ↔
        ((si.members.map StructMember.name).Nodup ∧
         ∀ mem ∈ si.members, (m.resolveType mem.type).isSome = true)) ∧
      (m.resolveStructInfo si).2 = m) ∧
    (initModule.resolveStructInfo exDupMemberStruct).1 = false := by
  constructor
  · intro m si
    constructor
    · show m.resolveStructMembers si.members [] = true ↔ _
      rw [resolveStructMembers_iff]
      constructor
      · rintro ⟨h1, _, h3⟩
        exact ⟨h1, h3⟩
      · rintro ⟨h1, h3⟩
        exact ⟨h1, by simp, h3⟩
    · rfl
  · rfl

/-- C2 witness: a struct with one `int32` member resolves successfully,
via the amended characterization. -/
theorem claim_C2_witness :
    (initModule.resolveStructInfo exOneMemberStruct).1 = true :=
  ((claim_C2_amended.1 initModule exOneMemberStruct).1).mpr (by decide)

/-- C3, counterexample: the const file `const uint32 c = 0` parses
successfully (so the const declaration `c` resolved successfully), yet
no entry for `c` — indeed no entry at all — is inserted into the
resolved-shape map: const (and likewise interface and struct)
resolution never inserts. -/
theorem claim_C3_counterexample :
    (parseFile exConstFile).1 = true ∧
    ((parseFile exConstFile).2.resolvedTypes.lookup "c").isNone = true ∧
    (parseFile exConstFile).2.resolvedTypes = [] :=
  ⟨rfl, rfl, rfl⟩

/-- C3 (amended): during `Resolve`, only enum and union resolution
insert into the resolved-shape map — const, interface and struct
resolution leave the module state unchanged, so every map entry present
after `Resolve` was present before or names an enum or union
declaration; and a duplicate insertion into the map is rejected (the
insert returns failure and the map is unchanged), never overwritten. -/
theorem claim_C3_amended :
    (∀ (m : Module) (n : String) (sh : TypeShape),
      (m.resolvedTypes.lookup n).isSome = true →
      m.registerResolvedType n sh = (false, m)) ∧
    (∀ (m : Module) (ci : ConstInfo), (m.resolveConstInfo ci).2 = m) ∧
    (∀ (m : Module) (ii : InterfaceInfo), (m.resolveInterfaceInfo ii).2 = m) ∧
    (∀ (m : Module) (si : StructInfo), (m.resolveStructInfo si).2 = m) ∧
    (∀ (m : Module) (n : String),
      (((m.resolve).2).resolvedTypes.lookup n).isSome = true →
      (m.resolvedTypes.lookup n).isSome = true ∨
      n ∈ m.enumInfos.map EnumInfo.name ∨ n ∈ m.unionInfos.map UnionInfo.name) :=
  ⟨registerResolvedType_dup, resolveConstInfo_state, resolveInterfaceInfo_state,
   resolveStructInfo_state, fun m n => resolve_lookup_source m n⟩

/-- C3 witness: a duplicate insertion at the concrete key `x` is
rejected and leaves the map as it was. -/
theorem claim_C3_witness :
    exPrefilled.registerResolvedType "x" kInt32TypeShape = (false, exPrefilled) :=
  claim_C3_amended.1 exPrefilled "x" kInt32TypeShape rfl

/-- C4: `ConsumeFile` registers every top-level declaration name before
`Resolve` runs, identifier lookups during `Resolve` consult only the
global registry, and in particular the forward-reference file
`struct A { B b; }; struct B { int32 x; }` parses successfully
end-to-end. -/
theorem claim_C4 :
    (∀ (m m' : Module) (f : File), m.consumeFile f = (true, m') →
      ∀ n ∈ topLevelNames f, n ∈ m'.registeredTypes) ∧
    (∀ (m : Module) (id : String), m.resolveTypeName id = true ↔ id ∈ m.registeredTypes) ∧
    (parseFile exForwardFile).1 = true := by
  refine ⟨?_, ?_, rfl⟩
  · intro m m' f h n hn
    unfold Module.consumeFile at h
    cases h1 : runList Module.consumeConstDeclaration m f.constDeclarationList with
    | mk b1 m1 =>
      rw [h1] at h
      cases b1
      · exact absurd h (by simp)
      · simp only [] at h
        cases h2 : runList Module.consumeEnumDeclaration m1 f.enumDeclarationList with
        | mk b2 m2 =>
          rw [h2] at h
          cases b2
          · exact absurd h (by simp)
          · simp only [] at h
            cases h3 : runList Module.consumeInterfaceDeclaration m2 f.interfaceDeclarationList with
            | mk b3 m3 =>
              rw [h3] at h
              cases b3
              · exact absurd h (by simp)
              · simp only [] at h
                cases h4 : runList Module.consumeStructDeclaration m3 f.structDeclarationList with
                | mk b4 m4 =>
                  rw [h4] at h
                  cases b4
                  · exact absurd h (by simp)
                  · simp only [] at h
                    -- h : runList consumeUnion m4 f.unionDeclarationList = (true, m')
                    have rel2 : ConsumeRel m1 m2 := by
                      have := runList_rel Module.consumeEnumDeclaration
                        consumeEnumDeclaration_rel f.enumDeclarationList m1
                      rw [h2] at this
                      exact this
                    have rel3 : ConsumeRel m2 m3 := by
                      have := runList_rel Module.consumeInterfaceDeclaration
                        consumeInterfaceDeclaration_rel f.interfaceDeclarationList m2
                      rw [h3] at this
                      exact this
                    have rel4 : ConsumeRel m3 m4 := by
                      have := runList_rel Module.consumeStructDeclaration
                        consumeStructDeclaration_rel f.structDeclarationList m3
                      rw [h4] at this
                      exact this
                    have rel5 : ConsumeRel m4 m' := by
                      have := runList_rel Module.consumeUnionDeclaration
                        consumeUnionDeclaration_rel f.unionDeclarationList m4
                      rw [h] at this
                      exact this
                    unfold topLevelNames at hn
                    rw [List.mem_append, List.mem_append, List.mem_append,
                      List.mem_append] at hn
                    rcases hn with ((((hc | he) | hi) | hs) | hu)
                    · obtain ⟨d, hd, rfl⟩ := List.mem_map.mp hc
                      have := runList_registers Module.consumeConstDeclaration
                        ConstDeclaration.identifier
                        (fun st x st' hh => consumeConstDeclaration_registers hh)
                        (fun st x nn hh => (consumeConstDeclaration_rel st x).2 nn hh)
                        f.constDeclarationList m m1 h1 d hd
                      exact rel5.2 _ (rel4.2 _ (rel3.2 _ (rel2.2 _ this)))
                    · obtain ⟨d, hd, rfl⟩ := List.mem_map.mp he
                      have := runList_registers Module.consumeEnumDeclaration
                        EnumDeclaration.identifier
                        (fun st x st' hh => consumeEnumDeclaration_registers hh)
                        (fun st x nn hh => (consumeEnumDeclaration_rel st x).2 nn hh)
                        f.enumDeclarationList m1 m2 h2 d hd
                      exact rel5.2 _ (rel4.2 _ (rel3.2 _ this))
                    · obtain ⟨d, hd, rfl⟩ := List.mem_map.mp hi
                      have := runList_registers Module.consumeInterfaceDeclaration
                        InterfaceDeclaration.identifier
                        (fun st x st' hh => consumeInterfaceDeclaration_registers hh)
                        (fun st x nn hh => (consumeInterfaceDeclaration_rel st x).2 nn hh)
                        f.interfaceDeclarationList m2 m3 h3 d hd
                      exact rel5.2 _ (rel4.2 _ this)
                    · obtain ⟨d, hd, rfl⟩ := List.mem_map.mp hs
                      have := runList_registers Module.consumeStructDeclaration
                        StructDeclaration.identifier
                        (fun st x st' hh => consumeStructDeclaration_registers hh)
                        (fun st x nn hh => (consumeStructDeclaration_rel st x).2 nn hh)
                        f.structDeclarationList m3 m4 h4 d hd
                      exact rel5.2 _ this
                    · obtain ⟨d, hd, rfl⟩ := List.mem_map.mp hu
                      exact runList_registers Module.consumeUnionDeclaration
                        UnionDeclaration.identifier
                        (fun st x st' hh => consumeUnionDeclaration_registers hh)
                        (fun st x nn hh => (consumeUnionDeclaration_rel st x).2 nn hh)
                        f.unionDeclarationList m4 m' h d hd
  · intro m id
    unfold Module.resolveTypeName
    simp

/-- C4 witness: in the forward-reference file, after consuming the whole
file the later-declared name `B` is registered, so the earlier struct
`A` can resolve its reference to it. -/
theorem claim_C4_witness :
    "B" ∈ ((initModule.consumeFile exForwardFile).2).registeredTypes :=
  claim_C4.1 initModule (initModule.consumeFile exForwardFile).2 exForwardFile rfl
    "B" (by decide)

/-- C5: a union whose members all resolve (with pairwise distinct
names, a fresh map key, and no `size_t` overflow) registers the shape
whose alignment is the maximum of the member alignments and whose size
is the maximum of the member sizes rounded up to that alignment. -/
theorem claim_C5 (m : Module) (ui : UnionInfo) (shapes : List TypeShape)
    (hres : List.Forall₂ (fun mem sh => m.resolveType mem.type = some sh) ui.members shapes)
    (hnodup : (ui.members.map UnionMember.name).Nodup)
    (hne : shapes ≠ [])
    (hov : maxSizeList shapes + maxAlignList shapes ≤ sizeTMod)
    (hfresh : (m.resolvedTypes.lookup ui.name).isNone = true) :
    m.resolveUnionInfo ui =
      (true, { m with resolvedTypes :=
        (ui.name, TypeShape.mk (roundUpTo (maxSizeList shapes) (maxAlignList shapes))
          (maxAlignList shapes) []) :: m.resolvedTypes }) := by
  have halign := forall₂_resolveType_alignIn m hres
  have hA1 : 1 ≤ maxAlignList shapes := by
    cases shapes with
    | nil => exact absurd rfl hne
    | cons sh rest =>
      have := alignIn_pos (halign sh (by simp))
      rw [maxAlignList_cons]
      omega
  have e1 : max 0 (maxSizeList shapes) = maxSizeList shapes := by omega
  have e2 : max 1 (maxAlignList shapes) = maxAlignList shapes := by omega
  have hsound := resolveUnionMembers_sound m hres [] defaultTypeShape hnodup (by simp)
  have hfold : shapes.foldl UnionShape defaultTypeShape =
      TypeShape.mk (roundUpTo (maxSizeList shapes) (maxAlignList shapes))
        (maxAlignList shapes) [] := by
    have h := foldl_UnionShape_formula shapes halign 0 1 (Or.inl rfl)
      (by rw [e1, e2]; exact hov)
    rw [e1, e2] at h
    exact h
  have hne' : ¬((m.resolvedTypes.lookup ui.name).isSome = true) := by
    rw [Option.isNone_iff_eq_none] at hfresh
    rw [hfresh]
    simp
  unfold Module.resolveUnionInfo
  rw [hsound, hfold]
  simp only []
  unfold Module.registerResolvedType
  rw [if_neg hne']

/-- C5 witness: `union { uint8 a; uint64 b; }` resolves to size 8,
alignment 8. -/
theorem claim_C5_witness :
    initModule.resolveUnionInfo exUnion =
      (true, { initModule with resolvedTypes := [("U", TypeShape.mk 8 8 [])] }) := by
  have h := claim_C5 initModule exUnion [TypeShape.mk 1 1 [], TypeShape.mk 8 8 []]
    (List.Forall₂.cons rfl (List.Forall₂.cons rfl List.Forall₂.nil))
    (by decide) (by simp) (by decide) rfl
  exact h

/-- C6: array resolution: given a resolved element shape and an
evaluated count, it fails iff the count is 0; on success the shape is
element size × N (in `size_t` arithmetic), element alignment, and no
out-of-line `Allocation`; identifier-backed count constants evaluate to
the fixed placeholder 23; `Array<uint32,4>` gives `(16,4)` and
`Array<uint32,0>` is rejected. -/
theorem claim_C6 :
    (∀ (m : Module) (e : Type') (c : Option Constant) (esh : TypeShape) (n : Int),
      m.resolveType e = some esh → parseIntegerConstant uint64T c = some n →
      m.resolveType (.array e c) =
        if n = 0 then none
        else some (TypeShape.mk (esh.size * n.toNat % sizeTMod) esh.alignment [])) ∧
    (∀ (m : Module) (e : Type') (c : Option Constant) (esh : TypeShape) (n : Int),
      m.resolveType e = some esh → parseIntegerConstant uint64T c = some n →
      n ≠ 0 → esh.size * n.toNat < sizeTMod →
      m.resolveType (.array e c) = some (TypeShape.mk (esh.size * n.toNat) esh.alignment [])) ∧
    (∀ id : String, parseIntegerConstant uint64T (some (.identifier id)) = some 23) ∧
    initModule.resolveType exArray4 = some (TypeShape.mk 16 4 []) ∧
    initModule.resolveType exArray0 = none := by
  have key : ∀ (m : Module) (e : Type') (c : Option Constant) (esh : TypeShape) (n : Int),
      m.resolveType e = some esh → parseIntegerConstant uint64T c = some n →
      m.resolveType (.array e c) =
        if n = 0 then none
        else some (TypeShape.mk (esh.size * n.toNat % sizeTMod) esh.alignment []) := by
    intro m e c esh n he hc
    simp only [Module.resolveType, he, hc]
    by_cases h0 : n = 0
    · rw [if_pos h0, if_pos h0]
    · rw [if_neg h0, if_neg h0]
      rfl
  refine ⟨key, ?_, fun _ => rfl, rfl, rfl⟩
  intro m e c esh n he hc h0 hlt
  rw [key m e c esh n he hc, if_neg h0, Nat.mod_eq_of_lt hlt]

/-- C6 witness: the general array equation evaluated at `uint32` element
shape `(4,4)` and count 4 gives `(16,4)`. -/
theorem claim_C6_witness :
    initModule.resolveType exArray4 = some (TypeShape.mk 16 4 []) :=
  claim_C6.2.1 initModule (.primitive .uint32) (some (.literal (.numeric 4)))
    (TypeShape.mk 4 4 []) 4 rfl rfl (by decide) (by decide)

/-- C7: with a fresh map key, enum resolution fails exactly when the
underlying primitive type is `bool`, `float32` or `float64`; for the
eight sized-integer underlying types it succeeds and registers exactly
the underlying primitive's shape. -/
theorem claim_C7 (m : Module) (ei : EnumInfo)
    (hfresh : (m.resolvedTypes.lookup ei.name).isNone = true) :
    ((m.resolveEnumInfo ei).1 = true ↔
      (ei.type ≠ PrimitiveSubtype.bool ∧ ei.type ≠ PrimitiveSubtype.float32 ∧
       ei.type ≠ PrimitiveSubtype.float64)) ∧
    ((ei.type ≠ PrimitiveSubtype.bool ∧ ei.type ≠ PrimitiveSubtype.float32 ∧
      ei.type ≠ PrimitiveSubtype.float64) →
      m.resolveEnumInfo ei =
        (true, { m with resolvedTypes :=
          (ei.name, primitiveTypeShape ei.type) :: m.resolvedTypes })) := by
  have hb := resolveEnumInfo_behavior m ei hfresh
  refine ⟨⟨?_, ?_⟩, hb.2⟩
  · intro h
    by_cases h1 : ei.type = PrimitiveSubtype.bool
    · rw [hb.1 (Or.inl h1)] at h
      exact absurd h (by simp)
    · by_cases h2 : ei.type = PrimitiveSubtype.float32
      · rw [hb.1 (Or.inr (Or.inl h2))] at h
        exact absurd h (by simp)
      · by_cases h3 : ei.type = PrimitiveSubtype.float64
        · rw [hb.1 (Or.inr (Or.inr h3))] at h
          exact absurd h (by simp)
        · exact ⟨h1, h2, h3⟩
  · intro hc
    rw [hb.2 hc]

/-- C7 witness: `enum : uint16` on a fresh module resolves and registers
the shape `(2,2)`. -/
theorem claim_C7_witness :
    initModule.resolveEnumInfo exEnumU16 =
      (true, { initModule with resolvedTypes := [("E", TypeShape.mk 2 2 [])] }) :=
  (claim_C7 initModule exEnumU16 rfl).2 (by decide)

/-- C8: registering an already-registered top-level name fails and
leaves the registry unchanged; on the concrete file with two structs
named `Point` followed by `Later`, the whole `Parse` fails, only the
first `Point` was registered (`Later` never is), and `Resolve` never ran
(the resolved map is empty). -/
theorem claim_C8 :
    (∀ (m : Module) (n : String), n ∈ m.registeredTypes →
      m.registerTypeName n = (false, m)) ∧
    (parseFile exDupFile).1 = false ∧
    (parseFile exDupFile).2.registeredTypes = ["Point"] ∧
    ("Later" ∉ (parseFile exDupFile).2.registeredTypes) ∧
    (parseFile exDupFile).2.resolvedTypes = [] := by
  refine ⟨?_, rfl, rfl, by decide, rfl⟩
  intro m n h
  unfold Module.registerTypeName
  rw [if_pos h]

/-- C8 witness: re-registering the concrete name `Point` fails. -/
theorem claim_C8_witness :
    exRegistered.registerTypeName "Point" = (false, exRegistered) :=
  claim_C8.1 exRegistered "Point" (by decide)

/-- C9: every `TypeShape` the pipeline constructs or composes has a
nonzero power-of-two alignment: every shape produced by `ResolveType`,
the `UnionShape` composition (for any power-of-two inputs), the
`ArrayTypeShape` composition (alignment preserved), the primitive table,
the default-constructed shape, and every shape stored in the resolved
map at the end of the pipeline. -/
theorem claim_C9 :
    (∀ (m : Module) (ty : Type') (sh : TypeShape), m.resolveType ty = some sh →
      0 < sh.alignment ∧ ∃ k, sh.alignment = 2 ^ k) ∧
    (∀ l r : TypeShape, (∃ k, l.alignment = 2 ^ k) → (∃ k, r.alignment = 2 ^ k) →
      0 < (UnionShape l r).alignment ∧ ∃ k, (UnionShape l r).alignment = 2 ^ k) ∧
    (∀ (e : TypeShape) (c : Nat), (ArrayTypeShape e c).alignment = e.alignment) ∧
    (∀ st : PrimitiveSubtype, 0 < (primitiveTypeShape st).alignment ∧
      ∃ k, (primitiveTypeShape st).alignment = 2 ^ k) ∧
    (0 < defaultTypeShape.alignment ∧ defaultTypeShape.alignment = 2 ^ 0) ∧
    (∀ (f : File) (b : Bool) (m' : Module) (n : String) (sh : TypeShape),
      parseFile f = (b, m') → m'.resolvedTypes.lookup n = some sh →
      0 < sh.alignment ∧ ∃ k, sh.alignment = 2 ^ k) := by
  refine ⟨?_, ?_, fun _ _ => rfl, ?_, ⟨by decide, by decide⟩, ?_⟩
  · intro m ty sh h
    have ha := resolveType_alignIn m ty sh h
    exact ⟨alignIn_pos ha, alignIn_pow2 ha⟩
  · rintro l r ⟨kl, hl⟩ ⟨kr, hr⟩
    rw [UnionShape_alignment, hl, hr]
    constructor
    · have h1 : (0:Nat) < 2 ^ kl := Nat.pos_pow_of_pos kl (by norm_num)
      omega
    · rcases le_total kl kr with hle | hle
      · exact ⟨kr, Nat.max_eq_right (Nat.pow_le_pow_right (by norm_num) hle)⟩
      · exact ⟨kl, Nat.max_eq_left (Nat.pow_le_pow_right (by norm_num) hle)⟩
  · intro st
    have ha := alignIn_primitiveTypeShape st
    exact ⟨alignIn_pos ha, alignIn_pow2 ha⟩
  · intro f b m' n sh hp hl
    have hma : MapAligned (parseFile f).2 := parse_mapAligned initModule f rfl
    rw [hp] at hma
    have ha := hma n sh hl
    exact ⟨alignIn_pos ha, alignIn_pow2 ha⟩

/-- C9 witness: the invariant evaluated at the concrete array shape
`(16,4)` produced by `ResolveType` and at the concrete union shape
`(8,8)` stored in the resolved map after parsing a file. -/
theorem claim_C9_witness :
    (0 < (TypeShape.mk 16 4 []).alignment ∧
      ∃ k, (TypeShape.mk 16 4 []).alignment = 2 ^ k) ∧
    (0 < (TypeShape.mk 8 8 []).alignment ∧
      ∃ k, (TypeShape.mk 8 8 []).alignment = 2 ^ k) :=
  ⟨claim_C9.1 initModule exArray4 (TypeShape.mk 16 4 []) rfl,
   claim_C9.2.2.2.2.2 exUnionFile (parseFile exUnionFile).1 (parseFile exUnionFile).2 "U"
     (TypeShape.mk 8 8 []) rfl rfl⟩

/-- C10: consuming an enum declaration with no underlying-type
annotation substitutes `uint32` (failing only on a duplicate name, never
because of the omission), and the resulting `uint32` enum resolves with
shape `(4,4)`. -/
theorem claim_C10 (m : Module) (d : EnumDeclaration) (hnone : d.maybeSubtype = none) :
    (m.consumeEnumDeclaration d =
      if d.identifier ∈ m.registeredTypes then (false, m)
      else (true,
        { m with
          registeredTypes := d.identifier :: m.registeredTypes,
          enumInfos := m.enumInfos ++
            [⟨d.identifier, PrimitiveSubtype.uint32, d.members⟩] })) ∧
    (∀ (m2 : Module) (name : String) (members : List String),
      (m2.resolvedTypes.lookup name).isNone = true →
      m2.resolveEnumInfo ⟨name, PrimitiveSubtype.uint32, members⟩ =
        (true, { m2 with resolvedTypes :=
          (name, TypeShape.mk 4 4 []) :: m2.resolvedTypes })) := by
  constructor
  · unfold Module.consumeEnumDeclaration Module.registerTypeName
    rw [hnone]
    by_cases hmem : d.identifier ∈ m.registeredTypes
    · rw [if_pos hmem, if_pos hmem]
    · rw [if_neg hmem, if_neg hmem]
      rfl
  · intro m2 name members hfresh
    exact (resolveEnumInfo_behavior m2 ⟨name, PrimitiveSubtype.uint32, members⟩ hfresh).2
      ⟨fun hcon => PrimitiveSubtype.noConfusion hcon,
       fun hcon => PrimitiveSubtype.noConfusion hcon,
       fun hcon => PrimitiveSubtype.noConfusion hcon⟩

/-- C10 witness: the concrete declaration `enum E10 { val }` with no
subtype consumes with `uint32` substituted and resolves to `(4,4)`. -/
theorem claim_C10_witness :
    initModule.consumeEnumDeclaration exEnumNoSubtype =
      (true,
        { initModule with
          registeredTypes := ["E10"],
          enumInfos := [⟨"E10", PrimitiveSubtype.uint32, ["val"]⟩] }) ∧
    initModule.resolveEnumInfo ⟨"E10", PrimitiveSubtype.uint32, ["val"]⟩ =
      (true, { initModule with resolvedTypes := [("E10", TypeShape.mk 4 4 [])] }) := by
  have h := claim_C10 initModule exEnumNoSubtype rfl
  refine ⟨?_, h.2 initModule "E10" ["val"] rfl⟩
  rw [h.1]
  rfl

end Fidl
